import Mathlib

/-!
# Verification of the SeedVR2 four-phase video-upscaling orchestrator

This development gives a shallow embedding of the batching, frame-conforming,
precision, post-processing and color-correction logic of the SeedVR2 video
upscaler (`src/core/generation.py` and `src/utils/color_fix.py`) and proves or
refutes the specification claims about it.

Conventions of the embedding:
* Frame counts, indices and sizes are `Nat`; Python's signed arithmetic on the
  step size is decided by comparing the naturals before subtracting.
* A video batch is a `List` of frames (the temporal axis); a single image
  channel plane is a function `Fin h → Fin w → ℚ` (exact arithmetic stands in
  for the float32 promotion the code performs); per-channel statistics are
  stated over `Fin n → ℝ` because standard deviations need square roots.
* Python loops whose iteration count is bounded by the frame count are
  translated as structural recursion on a fuel argument instantiated with that
  bound, so every definition evaluates by `decide`/`rfl`.
* Sparse per-batch arrays of the pipeline context (`all_latents`,
  `batch_samples`, ...) are `List (Option _)`; `none` is Python's `None`.
-/

namespace SeedVR2

/-! ## Frame conformer (`cut_videos`, generation.py 198-225)

The source receives the video in (C, T, H, W) layout and manipulates only the
temporal axis (`videos.size(1)`, slice `videos[:, -1:]`, `torch.cat(..., dim=1)`),
so the embedding keeps just that axis: a batch is the list of its frames. -/

/-- `padding_needed = (4 - (t % 4)) % 4 + 1` from `cut_videos`. -/
def paddingNeeded (t : ℕ) : ℕ := (4 - t % 4) % 4 + 1

/-- `cut_videos` (generation.py 198-225): if the frame count already satisfies
`t % 4 == 1` the batch is returned unchanged, otherwise the last frame is
replicated `paddingNeeded t` times and concatenated.  The empty batch (which
the source would crash on) is returned unchanged. -/
def cut_videos {α : Type} (videos : List α) : List α :=
  if videos.length % 4 = 1 then videos
  else
    match videos.getLast? with
    | none => videos
    | some lastFrame => videos ++ List.replicate (paddingNeeded videos.length) lastFrame

/-- The conformed frame count: length of `cut_videos` on a batch of `t ≥ 1`
frames.  Equals the `target = ((t-1)//4+1)*4+1` computed at generation.py 664. -/
def conformedLen (t : ℕ) : ℕ :=
  if t % 4 = 1 then t else ((t - 1) / 4 + 1) * 4 + 1

/-! ## Batch planner (`calculate_optimal_batch_params`, generation.py 139-195) -/

/-- Result record of the batch planner. -/
structure BatchParams where
  step : ℕ
  temporal_overlap : ℕ
  best_batch : ℕ
  padding_waste : ℕ
  is_optimal : Bool
deriving DecidableEq, Repr

/-- `step = batch_size - temporal_overlap; if step <= 0: step = batch_size;
temporal_overlap = 0` (generation.py 162-165).  Python's signed subtraction is
decided by comparing the two naturals. -/
def calcStepOverlap (batch_size temporal_overlap : ℕ) : ℕ × ℕ :=
  if batch_size ≤ temporal_overlap then (batch_size, 0)
  else (batch_size - temporal_overlap, temporal_overlap)

/-- The `while current_frame < total_frames` padding simulation of
generation.py 174-187, with the loop translated on fuel.  Each iteration
advances `current` by at least 1 when `batch_size ≥ 1`, so fuel
`total_frames` is enough. -/
def paddingWasteAux (total batch_size step : ℕ) : ℕ → ℕ → ℕ
  | _, 0 => 0
  | current, fuel + 1 =>
    if current < total then
      let frames_in_batch := min batch_size (total - current)
      let target :=
        if frames_in_batch % 4 = 1 then frames_in_batch
        else ((frames_in_batch - 1) / 4 + 1) * 4 + 1
      (target - frames_in_batch) +
        paddingWasteAux total batch_size step
          (current + (if 0 < step then step else batch_size)) fuel
    else 0

/-- `calculate_optimal_batch_params` (generation.py 139-195). -/
def calculate_optimal_batch_params (total_frames batch_size temporal_overlap : ℕ) :
    BatchParams :=
  let so := calcStepOverlap batch_size temporal_overlap
  let valid_sizes := (List.range' 1 total_frames).filter (fun i => i % 4 = 1)
  let best_batch := match valid_sizes.max? with
    | some m => m
    | none => 1
  let padding_waste := paddingWasteAux total_frames batch_size so.1 0 total_frames
  { step := so.1
    temporal_overlap := so.2
    best_batch := best_batch
    padding_waste := padding_waste
    is_optimal := padding_waste = 0 }

/-- Modelled from the spec: "pad up to the next `4n+1`" — the least `t ≥ m`
with `t % 4 = 1`. -/
def specNextFourNPlusOne (m : ℕ) : ℕ := m + (5 - m % 4) % 4

/-- Modelled from the spec: "`padding_waste` is computed by simulating
batching: at position `p`, take `min(batch_size, total_frames-p)` frames, pad
up to the next `4n+1`, accumulate the pad; advance by `step`." -/
def specPaddingWasteAux (total batch_size step : ℕ) : ℕ → ℕ → ℕ
  | _, 0 => 0
  | p, fuel + 1 =>
    if p < total then
      let taken := min batch_size (total - p)
      (specNextFourNPlusOne taken - taken) +
        specPaddingWasteAux total batch_size step (p + step) fuel
    else 0

/-- Modelled from the spec: total padding waste of the simulated batching. -/
def specPaddingWaste (total batch_size step : ℕ) : ℕ :=
  specPaddingWasteAux total batch_size step 0 total

/-! ## Phase 1 encode loop: batch windows and original lengths
(`encode_all_batches`, generation.py 584-648, 661, 704)

The loop `for batch_idx in range(0, total_frames, step)` computes for each
iteration a window `[start_idx, end_idx)` and breaks (for `batch_idx > 0`)
when `end_idx - start_idx <= temporal_overlap`.  At `batch_idx == 0` the code
sets `start_idx = 0, end_idx = min(batch_size, total_frames)`, which coincides
with the general formula, so a single branch suffices.  The loop runs at most
`total_frames` iterations (the step is positive), so it is translated on fuel
`total_frames`. -/

/-- `step = batch_size - temporal_overlap if temporal_overlap > 0 else
batch_size; if step <= 0: step = batch_size; temporal_overlap = 0`
(generation.py 585-588).  Returns `(step, adjusted overlap)`. -/
def encodeStepOverlap (batch_size temporal_overlap : ℕ) : ℕ × ℕ :=
  if 0 < temporal_overlap then
    (if batch_size ≤ temporal_overlap then (batch_size, 0)
     else (batch_size - temporal_overlap, temporal_overlap))
  else (batch_size, 0)

/-- The encode loop of generation.py 635-646, producing the list of processed
windows `(start_idx, end_idx)` starting from loop counter `idx`. -/
def encodeWindowsAux (total batch_size overlap step : ℕ) : ℕ → ℕ → List (ℕ × ℕ)
  | _, 0 => []
  | idx, fuel + 1 =>
    if idx < total then
      let e := min (idx + batch_size) total
      if 0 < idx ∧ e - idx ≤ overlap then []
      else (idx, e) :: encodeWindowsAux total batch_size overlap step (idx + step) fuel
    else []

/-- All windows processed by Phase 1 for a run with the given parameters. -/
def encodeWindows (total_frames batch_size temporal_overlap : ℕ) : List (ℕ × ℕ) :=
  let so := encodeStepOverlap batch_size temporal_overlap
  encodeWindowsAux total_frames batch_size so.2 so.1 0 total_frames

/-- `ori_length = end_idx - start_idx` recorded for each batch
(generation.py 648, 661, 704). -/
def oriLengths (total_frames batch_size temporal_overlap : ℕ) : List ℕ :=
  (encodeWindows total_frames batch_size temporal_overlap).map (fun w => w.2 - w.1)

/-- Observable outcome of Phase 4's stream-writing loop: either it finishes
with the final cursor value, or torch raises a size-mismatch `RuntimeError`
on a slice assignment and the cursor is stuck at its value at that point. -/
inductive Phase4Outcome
  | finished (cursor : ℕ)
  | sizeMismatchError (cursorAtFailure : ℕ)
deriving DecidableEq, Repr

/-- Phase 4's write loop over the per-batch trimmed frame counts.
`final_video` holds exactly `total_frames` rows (generation.py 1359), and the
slice assignment `final_video[c : c + L] = sample` (generation.py 1362) only
succeeds when all `L` rows fit: the left slice is clamped to
`min(c + L, total_frames) - c` rows, so torch raises a size-mismatch
`RuntimeError` as soon as `c + L > total_frames`, and the loop never reaches
the cursor update at generation.py 1363 for that batch. -/
def phase4WriteAux (total_frames : ℕ) : List ℕ → ℕ → Phase4Outcome
  | [], c => .finished c
  | L :: rest, c =>
    if c + L ≤ total_frames then phase4WriteAux total_frames rest (c + L)
    else .sizeMismatchError c

/-- Phase 4 trims each decoded sample (whose frame count is the conformed
length of the batch, by the VAE round-trip contract of spec §3) to its
recorded `ori_length` (generation.py 1260-1261) and streams the trimmed
frames into `final_video` (generation.py 1349, 1362-1363). -/
def phase4Run (total_frames batch_size temporal_overlap : ℕ) : Phase4Outcome :=
  phase4WriteAux total_frames
    ((oriLengths total_frames batch_size temporal_overlap).map
      (fun t => min t (conformedLen t))) 0

/-- `final_video` is lazily allocated with first dimension `total_frames`
(generation.py 1359) as soon as one batch exists; with no batches it stays the
empty `(0,0,0,0)` tensor (generation.py 1391). -/
def finalVideoLen (total_frames batch_size temporal_overlap : ℕ) : ℕ :=
  if encodeWindows total_frames batch_size temporal_overlap = [] then 0 else total_frames

/-! ## Phase 4 alpha-processing block (generation.py 1194-1237)

The external operator `process_alpha_for_batch` is a black box (spec §1): it
is a parameter `pAlpha` of the embedding.  The per-batch arrays
`batch_samples`, `all_alpha_channels`, `all_input_rgb` are parallel
`List (Option _)`s of the same length.

In the source, the `for batch_idx in range(len(ctx['batch_samples']))` loop
body consists only of the three validation `continue` checks; the block that
calls `process_alpha_for_batch` sits at the indentation level of the `for`
statement itself, inside the enclosing `else:`.  It therefore executes once,
after the loop, with `batch_idx` holding the final loop value
`len(batch_samples) - 1`.  `alphaBlockCode` models exactly that; with an empty
`batch_samples` the source would raise `NameError` (`batch_idx` unbound), but
`postprocess_all_batches` has already rejected that case at line 1170-1171,
so the embedding returns the state unchanged there. -/

/-- Context slice for the alpha-processing block. -/
structure AlphaCtx (S A R : Type) where
  batch_samples : List (Option S)
  all_alpha_channels : List (Option A)
  all_input_rgb : List (Option R)
deriving DecidableEq, Repr

/-- The alpha block as written (generation.py 1202-1235): the call to the
alpha operator runs once, on the last batch index. -/
def alphaBlockCode {S A R : Type} (pAlpha : Option S → Option A → Option R → Option S)
    (ctx : AlphaCtx S A R) : AlphaCtx S A R :=
  match ctx.batch_samples.length with
  | 0 => ctx
  | n + 1 =>
    { batch_samples := ctx.batch_samples.set n
        (pAlpha (ctx.batch_samples.getD n none)
                (ctx.all_alpha_channels.getD n none)
                (ctx.all_input_rgb.getD n none))
      all_alpha_channels := ctx.all_alpha_channels.set n none
      all_input_rgb := ctx.all_input_rgb.set n none }

/-- Modelled from the spec (§4.9): "dispatch each batch through the external
alpha-processing operator with `(rgb_samples[i], alpha_channels[i],
input_rgb[i])` ...; the merged RGBA sample replaces `samples[i]`.  Alpha and
input-RGB slots are released as consumed"; batches whose sample or alpha data
is missing are skipped (spec §7). -/
def alphaBlockSpec {S A R : Type} (pAlpha : Option S → Option A → Option R → Option S)
    (ctx : AlphaCtx S A R) : AlphaCtx S A R :=
  let process : ℕ → Bool := fun i =>
    (ctx.batch_samples.getD i none).isSome ∧ (ctx.all_alpha_channels.getD i none).isSome
  { batch_samples := (List.range ctx.batch_samples.length).map (fun i =>
      if process i then
        pAlpha (ctx.batch_samples.getD i none)
               (ctx.all_alpha_channels.getD i none)
               (ctx.all_input_rgb.getD i none)
      else ctx.batch_samples.getD i none)
    all_alpha_channels := (List.range ctx.all_alpha_channels.length).map (fun i =>
      if process i then none else ctx.all_alpha_channels.getD i none)
    all_input_rgb := (List.range ctx.all_input_rgb.length).map (fun i =>
      if process i then none else ctx.all_input_rgb.getD i none) }

/-- Demonstration alpha operator (payloads are naturals): merges sample,
alpha and RGB data into a value distinct from the raw sample. -/
def alphaDemoOp : Option ℕ → Option ℕ → Option ℕ → Option ℕ :=
  fun s a r => some (s.getD 0 + a.getD 0 + r.getD 0)

/-- Demonstration Phase 4 state: two batches, both with non-null samples and
non-null alpha data. -/
def alphaDemoCtx : AlphaCtx ℕ ℕ ℕ :=
  { batch_samples := [some 10, some 20]
    all_alpha_channels := [some 1, some 2]
    all_input_rgb := [some 3, some 4] }

/-! ## Precision detector (`_ensure_precision_initialized`, generation.py 288-338) -/

/-- The torch dtypes the detector distinguishes, plus a catch-all. -/
inductive TorchDtype
  | float8e4m3fn
  | float8e5m2
  | float16
  | bfloat16
  | float32
  | otherDtype
deriving DecidableEq, Repr

/-- The two precision fields of the generation context. -/
structure PrecisionCtx where
  compute_dtype : Option TorchDtype
  autocast_dtype : Option TorchDtype
deriving DecidableEq, Repr

/-- Outcome of inspecting `next(runner.dit.parameters()).dtype` /
`next(runner.vae.parameters()).dtype`: either both dtypes, or any exception. -/
inductive DtypeInspection
  | ok (dit vae : TorchDtype)
  | raisesException
deriving DecidableEq, Repr

/-- `_ensure_precision_initialized` (generation.py 288-338): early-return when
`compute_dtype` is already set; otherwise every branch — FP8 dtypes, FP16,
anything else, and the exception fallback — assigns BFloat16 to both fields. -/
def ensure_precision_initialized (ctx : PrecisionCtx) (insp : DtypeInspection) :
    PrecisionCtx :=
  if ctx.compute_dtype.isSome then ctx
  else
    match insp with
    | .ok dit _vae =>
      if dit = .float8e4m3fn ∨ dit = .float8e5m2 then
        { compute_dtype := some .bfloat16, autocast_dtype := some .bfloat16 }
      else if dit = .float16 then
        { compute_dtype := some .bfloat16, autocast_dtype := some .bfloat16 }
      else
        { compute_dtype := some .bfloat16, autocast_dtype := some .bfloat16 }
    | .raisesException =>
      { compute_dtype := some .bfloat16, autocast_dtype := some .bfloat16 }

/-! ## Phase 2 entry validation (`upscale_all_batches`, generation.py 803-846)

Only the control flow up to the DiT work is modelled: the claims concern the
two `ValueError` paths and the empty-valid-latents early return
(`ctx['all_upscaled_latents'] = []`).  A run that passes validation with at
least one non-null latent proceeds to the DiT phase, abstracted as
`.proceedToDiT`. -/

/-- Observable outcome of entering Phase 2. -/
inductive UpscaleOutcome (L : Type)
  | earlyReturn (all_upscaled_latents : List (Option L))
  | proceedToDiT (num_valid_latents : ℕ)
deriving DecidableEq, Repr

/-- Python exceptions surfaced by the phase entry. -/
inductive PyError
  | valueError (msg : String)
deriving DecidableEq, Repr

/-- `upscale_all_batches` entry logic (generation.py 806-846), taking the
context's `all_latents` field (`none` when the key is absent). -/
def upscale_all_batches {L : Type} (all_latents : Option (List (Option L))) :
    Except PyError (UpscaleOutcome L) :=
  match all_latents with
  | none => .error (.valueError "No encoded latents found. Run encode_all_batches first.")
  | some latents =>
    if latents.isEmpty then
      .error (.valueError "No encoded latents found. Run encode_all_batches first.")
    else
      let num_valid_latents := (latents.filter (fun l => l.isSome)).length
      if num_valid_latents = 0 then .ok (.earlyReturn [])
      else .ok (.proceedToDiT num_valid_latents)

/-! ## Wavelet color transfer (color_fix.py 119-243)

The grouped convolution of `wavelet_blur` acts on each channel independently,
so the embedding models one channel plane as `Fin h → Fin w → ℚ` (exact
arithmetic for the float32 math).  `F.pad(..., mode='replicate')` followed by
`F.conv2d(..., dilation=radius)` samples the input at clamped coordinates
`i + di·radius` for `di ∈ {-1, 0, 1}`, weighted by the 3×3 kernel
`[[1,2,1],[2,4,2],[1,2,4→1]]/16`. -/

/-- One image channel plane. -/
abbrev Plane (h w : ℕ) := Fin h → Fin w → ℚ

/-- Replicate-padding index clamping: coordinate `i` is clamped into
`[0, n-1]`. -/
def clampIdx (n : ℕ) (hn : 0 < n) (i : ℤ) : Fin n :=
  ⟨(max 0 (min ((n : ℤ) - 1) i)).toNat, by omega⟩

/-- Entry `(di, dj)` of the 3×3 Gaussian-approximation kernel of
color_fix.py 142-146 (`0.0625/0.125/0.25` = corner/edge/center over 16). -/
def waveletKernel (di dj : ℤ) : ℚ :=
  ((if di = 0 then 2 else 1) * (if dj = 0 then 2 else 1) : ℚ) / 16

/-- `wavelet_blur` (color_fix.py 119-154): radius capped at
`max(1, min(H, W) // 8)`, then replicate-padded dilated 3×3 convolution. -/
def wavelet_blur {h w : ℕ} (hh : 0 < h) (hw : 0 < w) (x : Plane h w) (radius : ℕ) :
    Plane h w :=
  let max_safe_radius := max 1 (min h w / 8)
  let r : ℕ := if radius > max_safe_radius then max_safe_radius else radius
  fun i j =>
    ∑ di ∈ Finset.Icc (-1 : ℤ) 1, ∑ dj ∈ Finset.Icc (-1 : ℤ) 1,
      waveletKernel di dj *
        x (clampIdx h hh ((i : ℤ) + di * r)) (clampIdx w hw ((j : ℤ) + dj * r))

/-- The decomposition loop of color_fix.py 175-179: at level `i` blur with
radius `2^i`, add `image - blurred` to the running high-frequency
accumulator, and continue on the blurred image; `levels` counts the remaining
iterations. -/
def waveletDecompGo {h w : ℕ} (hh : 0 < h) (hw : 0 < w) :
    Plane h w → Plane h w → ℕ → ℕ → Plane h w × Plane h w
  | image, high_freq, _, 0 => (high_freq, image)
  | image, high_freq, i, levels + 1 =>
    let low_freq := wavelet_blur hh hw image (2 ^ i)
    waveletDecompGo hh hw low_freq (high_freq + (image - low_freq)) (i + 1) levels

/-- `wavelet_decomposition` (color_fix.py 157-181) with the default
`levels=5`; returns `(high_freq, low_freq)`. -/
def wavelet_decomposition {h w : ℕ} (hh : 0 < h) (hw : 0 < w) (image : Plane h w) :
    Plane h w × Plane h w :=
  waveletDecompGo hh hw image 0 0 5

/-- `torch.clamp(·, -1.0, 1.0)` on one value. -/
def clampSDR (q : ℚ) : ℚ := max (-1) (min 1 q)

/-- `wavelet_reconstruction` (color_fix.py 184-243) for equal-shaped inputs
(the resize branches do not fire): content high frequencies plus style low
frequencies, clamped into `[-1, 1]`. -/
def wavelet_reconstruction {h w : ℕ} (hh : 0 < h) (hw : 0 < w)
    (content_feat style_feat : Plane h w) : Plane h w :=
  fun i j =>
    clampSDR ((wavelet_decomposition hh hw content_feat).1 i j +
      (wavelet_decomposition hh hw style_feat).2 i j)

/-- Demonstration 1×1 plane with value `1/2 ∈ [-1, 1]`. -/
def waveletDemoPlane : Plane 1 1 := fun _ _ => 1 / 2

/-! ## AdaIN (color_fix.py 72-116)

`calc_mean_std` computes, for every `(batch, channel)` slice of the flattened
`view(b, c, -1)` tensor, the mean and `sqrt(var + 1e-5)` with torch's default
unbiased variance (denominator `n - 1`).  The embedding models one such slice
as `Fin n → ℝ`; square roots force `ℝ` here. -/

/-- Per-slice mean (`feat.view(b, c, -1).mean(dim=2)`). -/
noncomputable def chMean (n : ℕ) (v : Fin n → ℝ) : ℝ := (∑ i, v i) / n

/-- Per-slice unbiased variance (`feat.view(b, c, -1).var(dim=2)`). -/
noncomputable def chVar (n : ℕ) (v : Fin n → ℝ) : ℝ :=
  (∑ i, (v i - chMean n v) ^ 2) / ((n : ℝ) - 1)

/-- `feat_std = (var + 1e-5).sqrt()` from `calc_mean_std` (color_fix.py 87-88). -/
noncomputable def featStd (n : ℕ) (v : Fin n → ℝ) : ℝ := Real.sqrt (chVar n v + 1e-5)

/-- Plain standard deviation of a slice (no epsilon). -/
noncomputable def chStd (n : ℕ) (v : Fin n → ℝ) : ℝ := Real.sqrt (chVar n v)

/-- `adaptive_instance_normalization` (color_fix.py 94-116) on one
`(batch, channel)` slice:
`(content - content_mean) / content_std * style_std + style_mean`. -/
noncomputable def adaptive_instance_normalization (n : ℕ) (content_feat style_feat : Fin n → ℝ) :
    Fin n → ℝ :=
  fun i => (content_feat i - chMean n content_feat) / featStd n content_feat *
    featStd n style_feat + chMean n style_feat

/-! ## HSV hue-conditional saturation matching (color_fix.py 596-663)

Pixels of a tensor are flattened into parallel lists: `content_h`/`content_s`
are the hue and saturation values of the content (same length), likewise for
the style.  `torch.sort` is modelled by the stable `List.insertionSort`
(CPU `torch.sort` is stable; the scatter through sorted indices makes tie
order observable, and the embedding fixes it to the stable order).
`histogram_matching_1d` (color_fix.py 596-618) maps position `p` of the
source to `matched_sorted[rank p]` where `rank` is the stable sort rank; this
is computed by pairing positions sorted by value with `matched_sorted` and
re-sorting by position. -/

/-- `histogram_matching_1d` (color_fix.py 596-618). -/
def histogram_matching_1d (source reference : List ℚ) : List ℚ :=
  let n_source := source.length
  let n_reference := reference.length
  let reference_sorted := reference.insertionSort (· ≤ ·)
  let matched_sorted : List ℚ :=
    if n_source = n_reference then reference_sorted
    else
      -- `(torch.linspace(0,1,n_source) * (n_reference-1)).long()`, clamped
      (List.range n_source).map (fun k =>
        reference_sorted.getD (min (n_reference - 1) (k * (n_reference - 1) / (n_source - 1))) 0)
  let source_order := ((source.enum).insertionSort (fun a b => a.2 ≤ b.2)).map (fun p => p.1)
  ((source_order.zip matched_sorted).insertionSort (fun a b => a.1 ≤ b.1)).map (fun p => p.2)

/-- Membership of hue `hue` in bin `binIdx` (color_fix.py 638-648):
`bin_width = 1/12`; bin 0 also takes the wrap range `hue ≥ 1 - 1/12`. -/
def binContains (binIdx : ℕ) (hue : ℚ) : Bool :=
  if binIdx = 0 then
    (decide (0 ≤ hue) && decide (hue < 1 / 12)) || decide (1 - 1 / 12 ≤ hue)
  else
    decide ((binIdx : ℚ) * (1 / 12) ≤ hue) && decide (hue < ((binIdx : ℚ) + 1) * (1 / 12))

/-- Positions of the pixels whose hue falls in bin `binIdx`. -/
def binPositions (hs : List ℚ) (binIdx : ℕ) : List ℕ :=
  (List.range hs.length).filter (fun p => binContains binIdx (hs.getD p 0))

/-- Saturation values (`sats`) of the pixels whose hue (`hs`) falls in bin
`binIdx` — the boolean-mask extraction `content_s[content_mask]`. -/
def binVals (hs sats : List ℚ) (binIdx : ℕ) : List ℚ :=
  (binPositions hs binIdx).map (fun p => sats.getD p 0)

/-- One iteration of the bin loop (color_fix.py 638-661): when both bins hold
strictly more than `min_pixels = 100` values, the masked positions of
`matched` receive the histogram-matched values in mask order
(`matched_s[content_mask] = matched_s_bin`). -/
def matchBin (content_h content_s style_h style_s : List ℚ) (matched : List ℚ)
    (binIdx : ℕ) : List ℚ :=
  let content_s_bin := binVals content_h content_s binIdx
  let style_s_bin := binVals style_h style_s binIdx
  if 100 < content_s_bin.length ∧ 100 < style_s_bin.length then
    ((binPositions content_h binIdx).zip
        (histogram_matching_1d content_s_bin style_s_bin)).foldl
      (fun acc pv => acc.set pv.1 pv.2) matched
  else matched

/-- `hue_conditional_saturation_match` (color_fix.py 620-663): start from a
clone of the content saturations and run the 12 bin iterations in order. -/
def hue_conditional_saturation_match (content_h content_s style_h style_s : List ℚ) :
    List ℚ :=
  (List.range 12).foldl (matchBin content_h content_s style_h style_s) content_s

/-- Demonstration input: 100 content pixels, all with hue `1/8` (bin 1) and
saturation `1/5`. -/
def hsvThrContentH : List ℚ := List.replicate 100 (1 / 8)

/-- Saturations of the threshold demonstration content. -/
def hsvThrContentS : List ℚ := List.replicate 100 (1 / 5)

/-- Demonstration style: 100 pixels with hue `1/8` (bin 1)... -/
def hsvThrStyleH : List ℚ := List.replicate 100 (1 / 8)

/-- ...and saturation `4/5`. -/
def hsvThrStyleS : List ℚ := List.replicate 100 (4 / 5)

/-- Demonstration wrap-around input: pixel 0 has hue `0` (bin 0's principal
range), pixels 1-101 have hue `19/20 ∈ [11/12, 1)` (the wrap range shared by
bins 0 and 11); used for both content and style hues. -/
def hsvWrapHue : List ℚ := 0 :: List.replicate 101 (19 / 20)

/-- Wrap demonstration content saturations: all `1/5`. -/
def hsvWrapContentS : List ℚ := List.replicate 102 (1 / 5)

/-- Wrap demonstration style saturations: `9/10` on the bin-0-only pixel,
`1/2` on the wrap pixels. -/
def hsvWrapStyleS : List ℚ := (9 / 10) :: List.replicate 101 (1 / 2)

/-! ## Helper lemmas: frame conformer -/

theorem paddingNeeded_eq_target_sub (t : ℕ) (ht : 1 ≤ t) :
    paddingNeeded t = ((t - 1) / 4 + 1) * 4 + 1 - t := by
  unfold paddingNeeded
  omega

theorem cut_videos_length {α : Type} (videos : List α) (h : videos ≠ []) :
    (cut_videos videos).length = conformedLen videos.length := by
  unfold cut_videos conformedLen
  by_cases h4 : videos.length % 4 = 1
  · simp [h4]
  · have hlast : videos.getLast? = some (videos.getLast h) := List.getLast?_eq_getLast _ h
    have ht : 1 ≤ videos.length := List.length_pos.mpr h
    simp only [if_neg h4, hlast, List.length_append, List.length_replicate]
    rw [paddingNeeded_eq_target_sub _ ht]
    omega

theorem conformedLen_ge (t : ℕ) : t ≤ conformedLen t := by
  unfold conformedLen
  split <;> omega

theorem conformedLen_mod (t : ℕ) : conformedLen t % 4 = 1 := by
  unfold conformedLen
  split <;> omega

/-! ## Helper lemmas: encode loop windows -/

/-- With no overlap the recorded original lengths of the windows starting at
`idx` sum to the remaining frame count, provided the fuel covers it. -/
theorem encodeWindowsAux_sum_no_overlap (total batch_size : ℕ) (hb : 1 ≤ batch_size) :
    ∀ fuel idx, total ≤ idx + fuel →
      ((encodeWindowsAux total batch_size 0 batch_size idx fuel).map
        (fun w => w.2 - w.1)).sum = total - idx := by
  intro fuel
  induction fuel with
  | zero => intro idx h; simp [encodeWindowsAux]; omega
  | succ n ih =>
    intro idx h
    rw [encodeWindowsAux]
    by_cases hidx : idx < total
    · have hbreak : ¬ (0 < idx ∧ min (idx + batch_size) total - idx ≤ 0) := by omega
      simp only [if_pos hidx, if_neg hbreak, List.map_cons, List.sum_cons]
      rw [ih (idx + batch_size) (by omega)]
      omega
    · simp only [if_neg hidx, List.map_nil, List.sum_nil]
      omega

/-- Every window the loop emits sits at `idx + i·step` and extends to
`min (start + batch_size) total`. -/
theorem encodeWindowsAux_getD (total bs ov step : ℕ) :
    ∀ fuel idx i, i < (encodeWindowsAux total bs ov step idx fuel).length →
      (encodeWindowsAux total bs ov step idx fuel).getD i (0, 0) =
        (idx + i * step, min (idx + i * step + bs) total) := by
  intro fuel
  induction fuel with
  | zero => intro idx i h; simp [encodeWindowsAux] at h
  | succ n ih =>
    intro idx i h
    rw [encodeWindowsAux] at h ⊢
    by_cases hidx : idx < total
    · by_cases hbr : 0 < idx ∧ min (idx + bs) total - idx ≤ ov
      · simp only [if_pos hidx, if_pos hbr, List.length_nil] at h
        exact absurd h (Nat.not_lt_zero _)
      · simp only [if_pos hidx, if_neg hbr] at h ⊢
        cases i with
        | zero => simp
        | succ i' =>
          simp only [List.length_cons, Nat.succ_lt_succ_iff] at h
          rw [List.getD_cons_succ, ih (idx + step) i' h]
          have harith : idx + step + i' * step = idx + (i' + 1) * step := by ring
          rw [harith]
    · simp [if_neg hidx] at h

/-- If the loop emitted an `i`-th window at a positive start position, that
position lay inside the video and held strictly more frames than the overlap
(the break at generation.py 645-646 did not fire). -/
theorem encodeWindowsAux_cond_of_mem (total bs ov step : ℕ) :
    ∀ fuel idx i, i < (encodeWindowsAux total bs ov step idx fuel).length →
      0 < idx + i * step →
      idx + i * step < total ∧
        ov < min (idx + i * step + bs) total - (idx + i * step) := by
  intro fuel
  induction fuel with
  | zero => intro idx i h; simp [encodeWindowsAux] at h
  | succ n ih =>
    intro idx i h hpos
    rw [encodeWindowsAux] at h
    by_cases hidx : idx < total
    · by_cases hbr : 0 < idx ∧ min (idx + bs) total - idx ≤ ov
      · simp only [if_pos hidx, if_pos hbr, List.length_nil] at h
        exact absurd h (Nat.not_lt_zero _)
      · simp only [if_pos hidx, if_neg hbr] at h
        cases i with
        | zero =>
          simp only [Nat.zero_mul, Nat.add_zero] at hpos ⊢
          refine ⟨hidx, ?_⟩
          omega
        | succ i' =>
          simp only [List.length_cons, Nat.succ_lt_succ_iff] at h
          have harith : idx + (i' + 1) * step = (idx + step) + i' * step := by ring
          rw [harith] at hpos ⊢
          exact ih (idx + step) i' h hpos
    · simp [if_neg hidx] at h

/-- Conversely, if every window start up to the `i`-th lies inside the video
and (when positive) holds strictly more frames than the overlap, the loop
reaches the `i`-th window — given enough fuel. -/
theorem encodeWindowsAux_mem_of_cond (total bs ov step : ℕ) :
    ∀ fuel idx i, i < fuel →
      (∀ j, j ≤ i → idx + j * step < total ∧
        (idx + j * step = 0 ∨
          ov < min (idx + j * step + bs) total - (idx + j * step))) →
      i < (encodeWindowsAux total bs ov step idx fuel).length := by
  intro fuel
  induction fuel with
  | zero => intro idx i h; omega
  | succ n ih =>
    intro idx i hfuel hcond
    have h0 := hcond 0 (Nat.zero_le _)
    simp only [Nat.zero_mul, Nat.add_zero] at h0
    rw [encodeWindowsAux]
    have hbr : ¬ (0 < idx ∧ min (idx + bs) total - idx ≤ ov) := by omega
    simp only [if_pos h0.1, if_neg hbr, List.length_cons]
    cases i with
    | zero => omega
    | succ i' =>
      have hrec := ih (idx + step) i' (by omega) (fun j hj => by
        have := hcond (j + 1) (by omega)
        have harith : idx + (j + 1) * step = (idx + step) + j * step := by ring
        rw [harith] at this
        exact this)
      omega

/-- The effective step is positive whenever the batch size is. -/
theorem encodeStepOverlap_pos (bs ov : ℕ) (hb : 1 ≤ bs) :
    1 ≤ (encodeStepOverlap bs ov).1 := by
  unfold encodeStepOverlap
  split
  · split <;> simp <;> omega
  · simpa using hb

/-! ## Claim C4 — frame conformer -/

/-- **C4**: for every video tensor of `t ≥ 1` frames, `cut_videos` returns the
tensor unchanged when `t % 4 = 1`, and otherwise returns it extended by
replicating the last frame exactly `target - t` times where
`target = ((t-1)/4 + 1)*4 + 1`; in every case the result length satisfies
`len % 4 = 1`. -/
theorem C4_cut_videos_conforms {α : Type} (videos : List α) (h : 1 ≤ videos.length) :
    (videos.length % 4 = 1 → cut_videos videos = videos) ∧
    (videos.length % 4 ≠ 1 →
      ∃ lastFrame, videos.getLast? = some lastFrame ∧
        cut_videos videos = videos ++
          List.replicate (((videos.length - 1) / 4 + 1) * 4 + 1 - videos.length) lastFrame) ∧
    (cut_videos videos).length % 4 = 1 := by
  have hne : videos ≠ [] := by
    intro hcon
    rw [hcon] at h
    simp at h
  refine ⟨fun h4 => ?_, fun h4 => ?_, ?_⟩
  · unfold cut_videos
    rw [if_pos h4]
  · refine ⟨videos.getLast hne, List.getLast?_eq_getLast _ hne, ?_⟩
    unfold cut_videos
    rw [if_neg h4, List.getLast?_eq_getLast _ hne, paddingNeeded_eq_target_sub _ h]
  · rw [cut_videos_length _ hne]
    exact conformedLen_mod _

/-- Witness for C4 at the 3-frame video `[0, 1, 2]` (conformed to 5 frames). -/
theorem C4_cut_videos_conforms_witness :
    1 ≤ ([0, 1, 2] : List ℕ).length ∧
    ((([0, 1, 2] : List ℕ).length % 4 = 1 → cut_videos [0, 1, 2] = [0, 1, 2]) ∧
      (([0, 1, 2] : List ℕ).length % 4 ≠ 1 →
        ∃ lastFrame, ([0, 1, 2] : List ℕ).getLast? = some lastFrame ∧
          cut_videos [0, 1, 2] = [0, 1, 2] ++
            List.replicate (((([0, 1, 2] : List ℕ).length - 1) / 4 + 1) * 4 + 1 -
              ([0, 1, 2] : List ℕ).length) lastFrame) ∧
      (cut_videos ([0, 1, 2] : List ℕ)).length % 4 = 1) :=
  ⟨by decide, C4_cut_videos_conforms [0, 1, 2] (by decide)⟩

/-! ## Claim C5 — batch planner -/

/-- The planner's padding simulation coincides with the spec's description of
it once the per-batch target is recognised as "the next 4n+1". -/
theorem paddingWasteAux_eq_spec (total batch_size step : ℕ) (hb : 1 ≤ batch_size)
    (hs : 1 ≤ step) :
    ∀ fuel current, paddingWasteAux total batch_size step current fuel =
      specPaddingWasteAux total batch_size step current fuel := by
  intro fuel
  induction fuel with
  | zero => intro current; rfl
  | succ n ih =>
    intro current
    rw [paddingWasteAux, specPaddingWasteAux]
    by_cases hc : current < total
    · simp only [if_pos hc, ih]
      rw [if_pos (show 0 < step by omega)]
      have htarget :
          (if min batch_size (total - current) % 4 = 1 then min batch_size (total - current)
            else ((min batch_size (total - current) - 1) / 4 + 1) * 4 + 1) =
          specNextFourNPlusOne (min batch_size (total - current)) := by
        unfold specNextFourNPlusOne
        have h1 : 1 ≤ min batch_size (total - current) := by omega
        split <;> omega
      rw [htarget]
    · simp only [if_neg hc]

/-- **C5**: for every `total_frames ≥ 1`, `batch_size ≥ 1` and
`temporal_overlap`, the planner returns `step = batch_size - temporal_overlap`
(reset to `batch_size` with overlap 0 when that is ≤ 0), `best_batch` equal to
the greatest `k ∈ [1, total_frames]` with `k % 4 = 1`, `padding_waste` equal
to the spec's batching simulation, and `is_optimal` iff the waste is zero. -/
theorem C5_batch_planner (total bs ov : ℕ) (ht : 1 ≤ total) (hb : 1 ≤ bs) :
    ((calculate_optimal_batch_params total bs ov).step =
        if bs ≤ ov then bs else bs - ov) ∧
    ((calculate_optimal_batch_params total bs ov).temporal_overlap =
        if bs ≤ ov then 0 else ov) ∧
    ((calculate_optimal_batch_params total bs ov).best_batch % 4 = 1 ∧
      1 ≤ (calculate_optimal_batch_params total bs ov).best_batch ∧
      (calculate_optimal_batch_params total bs ov).best_batch ≤ total ∧
      ∀ k, k ≤ total → k % 4 = 1 →
        k ≤ (calculate_optimal_batch_params total bs ov).best_batch) ∧
    ((calculate_optimal_batch_params total bs ov).padding_waste =
      specPaddingWaste total bs (calculate_optimal_batch_params total bs ov).step) ∧
    ((calculate_optimal_batch_params total bs ov).is_optimal = true ↔
      (calculate_optimal_batch_params total bs ov).padding_waste = 0) := by
  have hstep : (calculate_optimal_batch_params total bs ov).step =
      (calcStepOverlap bs ov).1 := rfl
  have hso : 1 ≤ (calcStepOverlap bs ov).1 := by
    unfold calcStepOverlap
    split <;> simp <;> omega
  have hmem : ∀ k, k ∈ (List.range' 1 total).filter (fun i => i % 4 = 1) ↔
      (1 ≤ k ∧ k ≤ total ∧ k % 4 = 1) := by
    intro k
    simp only [List.mem_filter, List.mem_range'_1, decide_eq_true_eq]
    omega
  have hone : (1 : ℕ) ∈ (List.range' 1 total).filter (fun i => i % 4 = 1) := by
    rw [hmem]
    omega
  obtain ⟨m, hm⟩ : ∃ m, ((List.range' 1 total).filter (fun i => i % 4 = 1)).max? = some m := by
    cases hcase : ((List.range' 1 total).filter (fun i => i % 4 = 1)).max? with
    | none =>
      rw [List.max?_eq_none_iff] at hcase
      rw [hcase] at hone
      simp at hone
    | some m => exact ⟨m, rfl⟩
  have hmax := (List.max?_eq_some_iff (fun a => Nat.le_refl a)
    (fun a b => max_choice a b) (fun a b c => Nat.max_le)).mp hm
  have hbb : (calculate_optimal_batch_params total bs ov).best_batch = m := by
    unfold calculate_optimal_batch_params
    simp only [hm]
  refine ⟨?_, ?_, ?_, ?_, ?_⟩
  · rw [hstep]
    unfold calcStepOverlap
    split <;> rfl
  · show (calcStepOverlap bs ov).2 = _
    unfold calcStepOverlap
    split <;> rfl
  · rw [hbb]
    have hmmem := (hmem m).mp hmax.1
    refine ⟨hmmem.2.2, hmmem.1, hmmem.2.1, fun k hk hk4 => ?_⟩
    by_cases hk1 : 1 ≤ k
    · exact hmax.2 k ((hmem k).mpr ⟨hk1, hk, hk4⟩)
    · omega
  · rw [hstep]
    show paddingWasteAux total bs (calcStepOverlap bs ov).1 0 total = _
    unfold specPaddingWaste
    exact paddingWasteAux_eq_spec total bs _ hb hso total 0
  · show (decide ((calculate_optimal_batch_params total bs ov).padding_waste = 0) = true) ↔ _
    simp

/-- Witness for C5 at `total_frames = 17`, `batch_size = 9`,
`temporal_overlap = 4`. -/
theorem C5_batch_planner_witness :
    1 ≤ 17 ∧ 1 ≤ 9 ∧
    (((calculate_optimal_batch_params 17 9 4).step = if 9 ≤ 4 then 9 else 9 - 4) ∧
      ((calculate_optimal_batch_params 17 9 4).temporal_overlap = if 9 ≤ 4 then 0 else 4) ∧
      ((calculate_optimal_batch_params 17 9 4).best_batch % 4 = 1 ∧
        1 ≤ (calculate_optimal_batch_params 17 9 4).best_batch ∧
        (calculate_optimal_batch_params 17 9 4).best_batch ≤ 17 ∧
        ∀ k, k ≤ 17 → k % 4 = 1 → k ≤ (calculate_optimal_batch_params 17 9 4).best_batch) ∧
      ((calculate_optimal_batch_params 17 9 4).padding_waste =
        specPaddingWaste 17 9 (calculate_optimal_batch_params 17 9 4).step) ∧
      ((calculate_optimal_batch_params 17 9 4).is_optimal = true ↔
        (calculate_optimal_batch_params 17 9 4).padding_waste = 0)) :=
  ⟨by decide, by decide, C5_batch_planner 17 9 4 (by decide) (by decide)⟩

/-! ## Claim C2 — length preservation -/

/-- The write loop finishes with cursor `c + Σ lengths` as long as every
prefix write fits into the `total_frames` rows — in particular whenever the
full sum does. -/
theorem phase4WriteAux_finished (total : ℕ) :
    ∀ (ls : List ℕ) (c : ℕ), c + ls.sum ≤ total →
      phase4WriteAux total ls c = .finished (c + ls.sum) := by
  intro ls
  induction ls with
  | nil => intro c h; simp [phase4WriteAux]
  | cons L rest ih =>
    intro c h
    rw [List.sum_cons] at h ⊢
    rw [phase4WriteAux, if_pos (by omega), ih (c + L) (by omega)]
    have : c + L + rest.sum = c + (L + rest.sum) := by omega
    rw [this]

/-- **C2 counterexample**: with `total_frames = 17`, `batch_size = 9`,
`temporal_overlap = 4` the windows are `[0,9), [5,14), [10,17)`, so the
recorded `ori_lengths` are `9, 9, 7` and sum to `25 ≠ 17`; and Phase 4 never
finishes writing: after batch 0's 9 frames, batch 1's 9 trimmed frames meet
the 8 remaining rows of the 17-row `final_video`, so the slice assignment at
generation.py 1362 raises a size-mismatch `RuntimeError` with the cursor
stuck at 9 — the cursor neither reaches `total_frames` nor is any
"finished" cursor value attained. -/
theorem C2_counterexample_overlap :
    (oriLengths 17 9 4).sum = 25 ∧ ¬ ((oriLengths 17 9 4).sum = 17) ∧
    phase4Run 17 9 4 = .sizeMismatchError 9 ∧
    ¬ (phase4Run 17 9 4 = .finished 17) := by decide

/-- **C2 (amended)**: for every run whose *effective* temporal overlap is
zero — `temporal_overlap = 0`, or `temporal_overlap ≥ batch_size`, which the
code resets to zero — with `total_frames ≥ 1` and `batch_size ≥ 1`, the sum
of the recorded `ori_lengths` equals `total_frames`, Phase 4 finishes
writing with its cursor at `total_frames`, and
`final_video.shape[0] = total_frames`.  (With a positive effective overlap
the windows overlap: the `ori_lengths` sum exceeds `total_frames` and Phase 4
aborts with a size-mismatch `RuntimeError` at the first overlap-crossing
write, as the counterexample shows.) -/
theorem C2_length_preservation (total bs ov : ℕ) (ht : 1 ≤ total) (hb : 1 ≤ bs)
    (hov : ov = 0 ∨ bs ≤ ov) :
    (oriLengths total bs ov).sum = total ∧
    phase4Run total bs ov = .finished total ∧
    finalVideoLen total bs ov = total := by
  have hso : encodeStepOverlap bs ov = (bs, 0) := by
    unfold encodeStepOverlap
    rcases hov with h0 | hle
    · subst h0
      simp
    · by_cases hpos : 0 < ov
      · rw [if_pos hpos, if_pos hle]
      · rw [if_neg hpos]
  have hsum : (oriLengths total bs ov).sum = total := by
    unfold oriLengths encodeWindows
    rw [hso]
    simpa using encodeWindowsAux_sum_no_overlap total bs hb total 0 (by omega)
  have htrim : (oriLengths total bs ov).map (fun t => min t (conformedLen t)) =
      oriLengths total bs ov := by
    rw [List.map_congr_left
      (fun t _ => Nat.min_eq_left (conformedLen_ge t)), List.map_id']
  refine ⟨hsum, ?_, ?_⟩
  · unfold phase4Run
    rw [htrim, phase4WriteAux_finished total _ 0 (by omega), Nat.zero_add, hsum]
  · unfold finalVideoLen
    have hne : encodeWindows total bs ov ≠ [] := by
      intro hcon
      have h0 : 0 < (encodeWindows total bs ov).length := by
        unfold encodeWindows
        rw [hso]
        exact encodeWindowsAux_mem_of_cond total bs 0 bs total 0 0 (by omega)
          (fun j hj => by
            interval_cases j
            simp
            omega)
      rw [hcon] at h0
      simp at h0
    rw [if_neg hne]

/-- Witness for C2 (amended) at `total_frames = 7`, `batch_size = 5`,
`temporal_overlap = 9`: the overlap exceeds the batch size, so the code
resets the effective overlap to zero and the two windows `[0,5), [5,7)`
tile the video. -/
theorem C2_length_preservation_witness :
    1 ≤ 7 ∧ 1 ≤ 5 ∧ (9 = 0 ∨ 5 ≤ 9) ∧
    ((oriLengths 7 5 9).sum = 7 ∧ phase4Run 7 5 9 = .finished 7 ∧
      finalVideoLen 7 5 9 = 7) :=
  ⟨by decide, by decide, by decide,
    C2_length_preservation 7 5 9 (by decide) (by decide) (by decide)⟩

/-! ## Claim C3 — window placement and loop termination -/

/-- **C3 counterexample**: at `total_frames = 14`, `batch_size = 9`,
`temporal_overlap = 4` (step 5) the loop stops before the window at
`2·step = 10`, although that window holds `min(10+9, 14) - 10 = 4` frames,
which is *not* fewer than `temporal_overlap = 4`: the loop terminates already
when the remaining frames merely *equal* the overlap, refuting the claim's
"fewer than" termination rule. -/
theorem C3_counterexample_termination :
    (encodeWindows 14 9 4).length = 2 ∧
    2 * (encodeStepOverlap 9 4).1 < 14 ∧
    ¬ (min (2 * (encodeStepOverlap 9 4).1 + 9) 14 - 2 * (encodeStepOverlap 9 4).1 < 4) := by
  decide

/-- **C3 (amended)**: batch `i` starts at `i·step`; the loop emits batch
`i ≥ 1` exactly when its window start lies inside the video and the window
holds *strictly more* frames than `temporal_overlap` (termination on
`remaining ≤ temporal_overlap`, not `<`); in particular for
`total_frames = 17`, `batch_size = 9`, `temporal_overlap = 4` the batches are
exactly `[0,9), [5,14), [10,17)`. -/
theorem C3_window_placement (total bs ov : ℕ) (_ht : 1 ≤ total) (hb : 1 ≤ bs) :
    (∀ i, i < (encodeWindows total bs ov).length →
      (encodeWindows total bs ov).getD i (0, 0) =
        (i * (encodeStepOverlap bs ov).1,
          min (i * (encodeStepOverlap bs ov).1 + bs) total)) ∧
    (∀ i, 1 ≤ i →
      (i < (encodeWindows total bs ov).length ↔
        (i * (encodeStepOverlap bs ov).1 < total ∧
          (encodeStepOverlap bs ov).2 <
            min (i * (encodeStepOverlap bs ov).1 + bs) total -
              i * (encodeStepOverlap bs ov).1))) ∧
    encodeWindows 17 9 4 = [(0, 9), (5, 14), (10, 17)] := by
  have hstep : 1 ≤ (encodeStepOverlap bs ov).1 := encodeStepOverlap_pos bs ov hb
  refine ⟨?_, ?_, by decide⟩
  · intro i hi
    have := encodeWindowsAux_getD total bs (encodeStepOverlap bs ov).2
      (encodeStepOverlap bs ov).1 total 0 i hi
    simpa using this
  · intro i hi1
    constructor
    · intro hi
      have := encodeWindowsAux_cond_of_mem total bs (encodeStepOverlap bs ov).2
        (encodeStepOverlap bs ov).1 total 0 i hi (by
          simp only [Nat.zero_add]
          exact Nat.mul_pos hi1 hstep)
      simpa using this
    · rintro ⟨hlt, hov⟩
      have hifuel : i < total := by
        calc i ≤ i * (encodeStepOverlap bs ov).1 := Nat.le_mul_of_pos_right i hstep
          _ < total := hlt
      refine encodeWindowsAux_mem_of_cond total bs (encodeStepOverlap bs ov).2
        (encodeStepOverlap bs ov).1 total 0 i hifuel (fun j hj => ?_)
      simp only [Nat.zero_add]
      have hmul : j * (encodeStepOverlap bs ov).1 ≤ i * (encodeStepOverlap bs ov).1 :=
        Nat.mul_le_mul_right _ hj
      refine ⟨by omega, ?_⟩
      rcases Nat.eq_zero_or_pos j with hj0 | hjpos
      · left
        rw [hj0]
        ring
      · right
        omega

/-- Witness for C3 (amended) at `total_frames = 17`, `batch_size = 9`,
`temporal_overlap = 4`. -/
theorem C3_window_placement_witness :
    1 ≤ 17 ∧ 1 ≤ 9 ∧
    ((∀ i, i < (encodeWindows 17 9 4).length →
      (encodeWindows 17 9 4).getD i (0, 0) =
        (i * (encodeStepOverlap 9 4).1, min (i * (encodeStepOverlap 9 4).1 + 9) 17)) ∧
    (∀ i, 1 ≤ i →
      (i < (encodeWindows 17 9 4).length ↔
        (i * (encodeStepOverlap 9 4).1 < 17 ∧
          (encodeStepOverlap 9 4).2 <
            min (i * (encodeStepOverlap 9 4).1 + 9) 17 - i * (encodeStepOverlap 9 4).1))) ∧
    encodeWindows 17 9 4 = [(0, 9), (5, 14), (10, 17)]) :=
  ⟨by decide, by decide, C3_window_placement 17 9 4 (by decide) (by decide)⟩

/-! ## Claim C1 — RGBA alpha-processing dispatch -/

/-- **C1** (code bug): on a two-batch RGBA run where every batch has a
non-null sample and non-null alpha data, the alpha block as written
(`alphaBlockCode`) dispatches the external alpha operator only for the *last*
batch index — batch 0 keeps its raw sample and its alpha/input-RGB slots are
never consumed — whereas the spec-intended behaviour (`alphaBlockSpec`, which
the source's own "Alpha processing complete for all batches" log and per-batch
loop structure also announce) processes both batches.  The `for` loop body at
generation.py 1202-1214 consists only of validation `continue`s; the
`process_alpha_for_batch` call at 1220 sits after the loop. -/
theorem C1_alpha_processes_only_last_batch :
    alphaBlockCode alphaDemoOp alphaDemoCtx =
      { batch_samples := [some 10, some 26]
        all_alpha_channels := [some 1, none]
        all_input_rgb := [some 3, none] } ∧
    alphaBlockSpec alphaDemoOp alphaDemoCtx =
      { batch_samples := [some 14, some 26]
        all_alpha_channels := [none, none]
        all_input_rgb := [none, none] } ∧
    (alphaBlockCode alphaDemoOp alphaDemoCtx).batch_samples.getD 0 none ≠
      alphaDemoOp (alphaDemoCtx.batch_samples.getD 0 none)
        (alphaDemoCtx.all_alpha_channels.getD 0 none)
        (alphaDemoCtx.all_input_rgb.getD 0 none) := by decide

/-! ## Claim C9 — precision detector -/

/-- Once `compute_dtype` is set, `_ensure_precision_initialized` returns the
context unchanged (the early return at generation.py 308-309). -/
theorem ensure_precision_noop_of_set (ctx : PrecisionCtx) (insp : DtypeInspection)
    (h : ctx.compute_dtype.isSome) :
    ensure_precision_initialized ctx insp = ctx := by
  unfold ensure_precision_initialized
  rw [if_pos h]

/-- After any call, `compute_dtype` is set. -/
theorem ensure_precision_sets (ctx : PrecisionCtx) (insp : DtypeInspection) :
    (ensure_precision_initialized ctx insp).compute_dtype.isSome := by
  unfold ensure_precision_initialized
  by_cases h : ctx.compute_dtype.isSome
  · rwa [if_pos h]
  · rw [if_neg h]
    cases insp with
    | ok dit vae =>
      dsimp only
      split
      · rfl
      · split <;> rfl
    | raisesException => rfl

/-- **C9**: for every observed DiT/VAE dtype pair — 8-bit float variants,
float16, bfloat16 or anything else — and also when inspection raises, the
detector sets `compute_dtype = autocast_dtype = bfloat16` in an uninitialized
context; and once set, any subsequent call leaves the context (both fields)
unchanged. -/
theorem C9_precision_always_bfloat16 (ctx : PrecisionCtx) (insp : DtypeInspection) :
    (ctx.compute_dtype = none →
      ensure_precision_initialized ctx insp =
        { compute_dtype := some .bfloat16, autocast_dtype := some .bfloat16 }) ∧
    (∀ insp2, ensure_precision_initialized (ensure_precision_initialized ctx insp) insp2 =
      ensure_precision_initialized ctx insp) := by
  constructor
  · intro hnone
    unfold ensure_precision_initialized
    rw [hnone]
    simp only [Option.isSome_none, Bool.false_eq_true, if_false]
    cases insp with
    | ok dit vae =>
      dsimp only
      split
      · rfl
      · split <;> rfl
    | raisesException => rfl
  · intro insp2
    exact ensure_precision_noop_of_set _ insp2 (ensure_precision_sets ctx insp)

/-- Witness for C9: an uninitialized context inspecting a float8-e4m3fn DiT. -/
theorem C9_precision_always_bfloat16_witness :
    (({ compute_dtype := none, autocast_dtype := none } : PrecisionCtx).compute_dtype = none →
      ensure_precision_initialized
          { compute_dtype := none, autocast_dtype := none }
          (.ok .float8e4m3fn .float32) =
        { compute_dtype := some .bfloat16, autocast_dtype := some .bfloat16 }) ∧
    (∀ insp2,
      ensure_precision_initialized
          (ensure_precision_initialized
            { compute_dtype := none, autocast_dtype := none }
            (.ok .float8e4m3fn .float32)) insp2 =
        ensure_precision_initialized
          { compute_dtype := none, autocast_dtype := none }
          (.ok .float8e4m3fn .float32)) :=
  C9_precision_always_bfloat16
    { compute_dtype := none, autocast_dtype := none } (.ok .float8e4m3fn .float32)

/-! ## Claim C10 — Phase 2 entry validation -/

/-- **C10**: `upscale_all_batches` raises `ValueError` when `all_latents` is
absent from the context or is the empty list, but returns normally with
`all_upscaled_latents = []` (performing no DiT work) when `all_latents` is a
non-empty list whose entries are all `None`. -/
theorem C10_upscale_entry_validation {L : Type} :
    (upscale_all_batches (L := L) none =
      .error (.valueError "No encoded latents found. Run encode_all_batches first.")) ∧
    (upscale_all_batches (L := L) (some []) =
      .error (.valueError "No encoded latents found. Run encode_all_batches first.")) ∧
    (∀ latents : List (Option L), latents ≠ [] → (∀ x ∈ latents, x = none) →
      upscale_all_batches (some latents) = .ok (.earlyReturn [])) := by
  refine ⟨rfl, rfl, fun latents hne hall => ?_⟩
  unfold upscale_all_batches
  have hempty : latents.isEmpty = false := by
    cases latents with
    | nil => exact absurd rfl hne
    | cons a l => rfl
  have hfilter : latents.filter (fun l => l.isSome) = [] := by
    rw [List.filter_eq_nil_iff]
    intro a ha
    rw [hall a ha]
    simp
  dsimp only
  rw [hempty]
  simp [hfilter]

/-- Witness for C10: the run whose two latent slots are already consumed. -/
theorem C10_upscale_entry_validation_witness :
    upscale_all_batches (L := ℕ) (some [none, none]) = .ok (.earlyReturn []) :=
  (C10_upscale_entry_validation (L := ℕ)).2.2 [none, none] (by decide) (by decide)

/-! ## Claim C6 — wavelet reconstruction is the identity on equal inputs -/

/-- Telescoping of the decomposition loop: whatever the blur does, the
accumulated high frequencies plus the final low-frequency image recompose the
starting accumulator plus the starting image. -/
theorem waveletDecompGo_add {h w : ℕ} (hh : 0 < h) (hw : 0 < w) :
    ∀ (levels i : ℕ) (image high : Plane h w),
      (waveletDecompGo hh hw image high i levels).1 +
        (waveletDecompGo hh hw image high i levels).2 = high + image := by
  intro levels
  induction levels with
  | zero => intro i image high; rfl
  | succ n ih =>
    intro i image high
    rw [waveletDecompGo]
    rw [ih]
    funext a b
    simp only [Pi.add_apply, Pi.sub_apply]
    ring

/-- The exact-arithmetic decomposition identity `high_freq + low_freq = x`. -/
theorem wavelet_decomposition_add {h w : ℕ} (hh : 0 < h) (hw : 0 < w)
    (image : Plane h w) :
    (wavelet_decomposition hh hw image).1 + (wavelet_decomposition hh hw image).2 =
      image := by
  unfold wavelet_decomposition
  rw [waveletDecompGo_add]
  funext a b
  simp

/-- **C6**: for every plane `x` with values in `[-1, 1]`, the wavelet
decomposition satisfies `high_freq + final_low_freq = x` in exact arithmetic,
so `wavelet_reconstruction x x = clamp(x, -1, 1) = x`: wavelet color
correction applied to identical content and style returns the content. -/
theorem C6_wavelet_identity {h w : ℕ} (hh : 0 < h) (hw : 0 < w) (x : Plane h w)
    (hx : ∀ i j, -1 ≤ x i j ∧ x i j ≤ 1) :
    ((wavelet_decomposition hh hw x).1 + (wavelet_decomposition hh hw x).2 = x) ∧
    wavelet_reconstruction hh hw x x = x := by
  have hd := wavelet_decomposition_add hh hw x
  refine ⟨hd, ?_⟩
  funext i j
  unfold wavelet_reconstruction
  have hsum : (wavelet_decomposition hh hw x).1 i j +
      (wavelet_decomposition hh hw x).2 i j = x i j := by
    have := congrFun (congrFun hd i) j
    simpa using this
  rw [hsum]
  unfold clampSDR
  rcases hx i j with ⟨h1, h2⟩
  rw [min_eq_right h2, max_eq_right h1]

/-- Witness for C6 at the constant `1/2` plane. -/
theorem C6_wavelet_identity_witness :
    (∀ i j, -1 ≤ waveletDemoPlane i j ∧ waveletDemoPlane i j ≤ 1) ∧
    (((wavelet_decomposition Nat.one_pos Nat.one_pos waveletDemoPlane).1 +
        (wavelet_decomposition Nat.one_pos Nat.one_pos waveletDemoPlane).2 =
          waveletDemoPlane) ∧
      wavelet_reconstruction Nat.one_pos Nat.one_pos waveletDemoPlane waveletDemoPlane =
        waveletDemoPlane) :=
  ⟨fun i j => by norm_num [waveletDemoPlane],
    C6_wavelet_identity Nat.one_pos Nat.one_pos waveletDemoPlane
      (fun i j => by norm_num [waveletDemoPlane])⟩

/-! ## Claim C7 — AdaIN statistics -/

theorem chMean_affine (n : ℕ) (hn : 0 < n) (a b : ℝ) (v : Fin n → ℝ) :
    chMean n (fun i => a * v i + b) = a * chMean n v + b := by
  have hn' : (n : ℝ) ≠ 0 := by
    exact_mod_cast hn.ne'
  unfold chMean
  rw [Finset.sum_add_distrib, ← Finset.mul_sum, Finset.sum_const, Finset.card_univ,
    Fintype.card_fin, nsmul_eq_mul]
  field_simp
  ring

theorem chVar_affine (n : ℕ) (hn : 0 < n) (a b : ℝ) (v : Fin n → ℝ) :
    chVar n (fun i => a * v i + b) = a ^ 2 * chVar n v := by
  unfold chVar
  rw [chMean_affine n hn a b v]
  have hterm : ∀ i : Fin n,
      (a * v i + b - (a * chMean n v + b)) ^ 2 = a ^ 2 * (v i - chMean n v) ^ 2 :=
    fun i => by ring
  simp only [hterm]
  rw [← Finset.mul_sum, mul_div_assoc]

theorem chVar_nonneg (n : ℕ) (hn : 2 ≤ n) (v : Fin n → ℝ) : 0 ≤ chVar n v := by
  unfold chVar
  have h1 : (0 : ℝ) ≤ (n : ℝ) - 1 := by
    have : (2 : ℝ) ≤ (n : ℝ) := by exact_mod_cast hn
    linarith
  exact div_nonneg (Finset.sum_nonneg fun i _ => sq_nonneg _) h1

/-- AdaIN is the affine map `x ↦ a·x + (μ_s - a·μ_c)` with
`a = σ_s/σ_c`. -/
theorem adain_eq_affine (n : ℕ) (content style : Fin n → ℝ) :
    adaptive_instance_normalization n content style = fun i =>
      (featStd n style / featStd n content) * content i +
        (chMean n style - (featStd n style / featStd n content) * chMean n content) := by
  funext i
  unfold adaptive_instance_normalization
  ring

/-- **C7 counterexample**: for the constant content channel `(0, 0)` and the
style channel `(1, -1)` the AdaIN output is the constant `0`, whose standard
deviation `0` differs from the style's standard deviation `√2` by far more
than `ε = 1e-5` — the claim's "per-channel standard deviation within epsilon
of the style's" fails (the mean clause alone does hold). -/
theorem C7_counterexample_constant_content :
    ¬ (chMean 2 (adaptive_instance_normalization 2 ![0, 0] ![1, -1]) = chMean 2 ![1, -1] ∧
       |chStd 2 (adaptive_instance_normalization 2 ![0, 0] ![1, -1]) - chStd 2 ![1, -1]| <
         1e-5) := by
  have hμc : chMean 2 ![(0 : ℝ), 0] = 0 := by
    simp [chMean, Fin.sum_univ_two]
  have hμs : chMean 2 ![(1 : ℝ), -1] = 0 := by
    simp [chMean, Fin.sum_univ_two]
  have hadain : adaptive_instance_normalization 2 ![(0 : ℝ), 0] ![1, -1] = fun _ => 0 := by
    funext i
    unfold adaptive_instance_normalization
    rw [hμc, hμs]
    have h0 : (![(0 : ℝ), 0]) i = 0 := by fin_cases i <;> simp
    rw [h0]
    simp
  have hstd0 : chStd 2 (adaptive_instance_normalization 2 ![(0 : ℝ), 0] ![1, -1]) = 0 := by
    rw [hadain]
    unfold chStd chVar chMean
    simp [Fin.sum_univ_two]
  have hvars : chVar 2 ![(1 : ℝ), -1] = 2 := by
    unfold chVar
    rw [hμs]
    norm_num [Fin.sum_univ_two]
  have hstds : chStd 2 ![(1 : ℝ), -1] = Real.sqrt 2 := by
    unfold chStd
    rw [hvars]
  have hsqrt : (1 : ℝ) ≤ Real.sqrt 2 := by
    rw [show (1 : ℝ) = Real.sqrt 1 from (Real.sqrt_one).symm]
    exact Real.sqrt_le_sqrt (by norm_num)
  rintro ⟨-, habs⟩
  rw [hstd0, hstds] at habs
  rw [abs_sub_comm, sub_zero, abs_of_nonneg (Real.sqrt_nonneg 2)] at habs
  linarith

/-- **C7 (amended)**: for every pair of channels over `n ≥ 2` values, the
AdaIN result `(content - μ_c)/σ_c · σ_s + μ_s` (with `σ = sqrt(var + 1e-5)`)
has per-channel mean *exactly* equal to the style's, and per-channel variance
equal to `var_c · (var_s + ε)/(var_c + ε)` — which approaches the style's
variance only as the content's variance grows relative to `ε` and collapses
to `0` for constant content, so the "std within ε of the style's" clause
holds only under that proviso. -/
theorem C7_adain_statistics (n : ℕ) (hn : 2 ≤ n) (content style : Fin n → ℝ) :
    chMean n (adaptive_instance_normalization n content style) = chMean n style ∧
    chVar n (adaptive_instance_normalization n content style) =
      chVar n content * (chVar n style + 1e-5) / (chVar n content + 1e-5) := by
  have hn0 : 0 < n := by omega
  have hvc : (0 : ℝ) ≤ chVar n content := chVar_nonneg n hn content
  have hvs : (0 : ℝ) ≤ chVar n style := chVar_nonneg n hn style
  have hsq : (featStd n style / featStd n content) ^ 2 =
      (chVar n style + 1e-5) / (chVar n content + 1e-5) := by
    unfold featStd
    rw [div_pow, Real.sq_sqrt (by linarith), Real.sq_sqrt (by linarith)]
  constructor
  · rw [adain_eq_affine, chMean_affine n hn0]
    ring
  · rw [adain_eq_affine, chVar_affine n hn0, hsq]
    have hne : chVar n content + 1e-5 ≠ 0 := by linarith
    field_simp
    ring

/-- Witness for C7 (amended) at `content = (1, 3)`, `style = (0, 2)`. -/
theorem C7_adain_statistics_witness :
    2 ≤ 2 ∧
    (chMean 2 (adaptive_instance_normalization 2 ![1, 3] ![0, 2]) = chMean 2 ![0, 2] ∧
      chVar 2 (adaptive_instance_normalization 2 ![1, 3] ![0, 2]) =
        chVar 2 ![1, 3] * (chVar 2 ![0, 2] + 1e-5) / (chVar 2 ![1, 3] + 1e-5)) :=
  ⟨by norm_num, C7_adain_statistics 2 (by norm_num) ![1, 3] ![0, 2]⟩

/-! ## Claim C8 — helper lemmas on masked scatter updates -/

theorem foldl_set_length (pairs : List (ℕ × ℚ)) (l : List ℚ) :
    (pairs.foldl (fun acc pv => acc.set pv.1 pv.2) l).length = l.length := by
  induction pairs generalizing l with
  | nil => rfl
  | cons pv rest ih => rw [List.foldl_cons, ih, List.length_set]

theorem foldl_set_getD_of_not_mem (pairs : List (ℕ × ℚ)) (l : List ℚ) (p : ℕ) (d : ℚ)
    (h : p ∉ pairs.map Prod.fst) :
    (pairs.foldl (fun acc pv => acc.set pv.1 pv.2) l).getD p d = l.getD p d := by
  induction pairs generalizing l with
  | nil => rfl
  | cons pv rest ih =>
    simp only [List.map_cons, List.mem_cons, not_or] at h
    rw [List.foldl_cons, ih _ h.2, List.getD_eq_getElem?_getD, List.getD_eq_getElem?_getD,
      List.getElem?_set_ne (Ne.symm h.1)]

theorem foldl_set_getD_of_mem (pairs : List (ℕ × ℚ)) (l : List ℚ) (p : ℕ) (v d : ℚ)
    (hnodup : (pairs.map Prod.fst).Nodup) (hmem : (p, v) ∈ pairs) (hp : p < l.length) :
    (pairs.foldl (fun acc pv => acc.set pv.1 pv.2) l).getD p d = v := by
  induction pairs generalizing l with
  | nil => simp at hmem
  | cons pv rest ih =>
    simp only [List.map_cons, List.nodup_cons] at hnodup
    rw [List.foldl_cons]
    rcases List.mem_cons.mp hmem with heq | hrest
    · cases heq
      rw [foldl_set_getD_of_not_mem rest _ p d hnodup.1,
        List.getD_eq_getElem _ _ (by rw [List.length_set]; exact hp),
        List.getElem_set_self]
    · exact ih _ hnodup.2 hrest (by rw [List.length_set]; exact hp)

theorem histogram_matching_1d_length (source reference : List ℚ) :
    (histogram_matching_1d source reference).length = source.length := by
  unfold histogram_matching_1d
  rw [List.length_map, List.length_insertionSort, List.length_zip, List.length_map,
    List.length_insertionSort, List.enum_length]
  split
  · rename_i heq
    rw [List.length_insertionSort, ← heq, min_self]
  · rw [List.length_map, List.length_range, min_self]

theorem binVals_length (hs ss : List ℚ) (b : ℕ) :
    (binVals hs ss b).length = (binPositions hs b).length := List.length_map _ _

theorem matchBin_length (ch cs sh ss m : List ℚ) (b : ℕ) :
    (matchBin ch cs sh ss m b).length = m.length := by
  unfold matchBin
  dsimp only
  split
  · exact foldl_set_length _ _
  · rfl

theorem matchBin_eq_of_not_qualified (ch cs sh ss m : List ℚ) (b : ℕ)
    (h : ¬ (100 < (binVals ch cs b).length ∧ 100 < (binVals sh ss b).length)) :
    matchBin ch cs sh ss m b = m := by
  unfold matchBin
  dsimp only
  rw [if_neg h]

theorem matchBin_getD_of_not_contains (ch cs sh ss m : List ℚ) (b p : ℕ) (d : ℚ)
    (h : binContains b (ch.getD p 0) = false) :
    (matchBin ch cs sh ss m b).getD p d = m.getD p d := by
  unfold matchBin
  dsimp only
  split
  · apply foldl_set_getD_of_not_mem
    rw [List.map_fst_zip _ _ (by rw [histogram_matching_1d_length, binVals_length])]
    unfold binPositions
    intro hmem
    rw [List.mem_filter] at hmem
    rw [hmem.2] at h
    cases h
  · rfl

theorem matchBin_getD_of_contains (ch cs sh ss m : List ℚ) (b p : ℕ)
    (hq : 100 < (binVals ch cs b).length ∧ 100 < (binVals sh ss b).length)
    (hc : binContains b (ch.getD p 0) = true) (hp : p < ch.length) (hpm : p < m.length) :
    (matchBin ch cs sh ss m b).getD p 0 =
      (histogram_matching_1d (binVals ch cs b) (binVals sh ss b)).getD
        ((binPositions ch b).indexOf p) 0 := by
  unfold matchBin
  dsimp only
  rw [if_pos hq]
  have hpmem : p ∈ binPositions ch b := by
    unfold binPositions
    rw [List.mem_filter, List.mem_range]
    exact ⟨hp, hc⟩
  have hidx : (binPositions ch b).indexOf p < (binPositions ch b).length :=
    List.indexOf_lt_length.mpr hpmem
  have hhmlen : (histogram_matching_1d (binVals ch cs b) (binVals sh ss b)).length =
      (binPositions ch b).length := by
    rw [histogram_matching_1d_length, binVals_length]
  apply foldl_set_getD_of_mem
  · rw [List.map_fst_zip _ _ (by rw [hhmlen])]
    exact (List.nodup_range _).filter _
  · have hzlen : (binPositions ch b).indexOf p <
        ((binPositions ch b).zip
          (histogram_matching_1d (binVals ch cs b) (binVals sh ss b))).length := by
      rw [List.length_zip, hhmlen, min_self]
      exact hidx
    have hz : ((binPositions ch b).zip
        (histogram_matching_1d (binVals ch cs b) (binVals sh ss b))).get
          ⟨(binPositions ch b).indexOf p, hzlen⟩ =
        (p, (histogram_matching_1d (binVals ch cs b) (binVals sh ss b)).getD
          ((binPositions ch b).indexOf p) 0) := by
      rw [List.get_eq_getElem, List.getElem_zip]
      refine Prod.ext (List.getElem_indexOf hidx) ?_
      rw [List.getD_eq_getElem _ _ (by rw [hhmlen]; exact hidx)]
    exact hz ▸ List.get_mem _ _ hzlen
  · exact hpm

theorem foldl_matchBin_length (ch cs sh ss : List ℚ) (L : List ℕ) (m : List ℚ) :
    (L.foldl (matchBin ch cs sh ss) m).length = m.length := by
  induction L generalizing m with
  | nil => rfl
  | cons b rest ih => rw [List.foldl_cons, ih, matchBin_length]

theorem foldl_matchBin_getD_untouched (ch cs sh ss : List ℚ) (L : List ℕ) (m : List ℚ)
    (p : ℕ) (d : ℚ)
    (h : ∀ b ∈ L, binContains b (ch.getD p 0) = false ∨
      ¬ (100 < (binVals ch cs b).length ∧ 100 < (binVals sh ss b).length)) :
    (L.foldl (matchBin ch cs sh ss) m).getD p d = m.getD p d := by
  induction L generalizing m with
  | nil => rfl
  | cons b rest ih =>
    rw [List.foldl_cons, ih _ (fun b' hb' => h b' (List.mem_cons_of_mem _ hb'))]
    rcases h b (List.mem_cons_self _ _) with hc | hq
    · exact matchBin_getD_of_not_contains ch cs sh ss m b p d hc
    · rw [matchBin_eq_of_not_qualified ch cs sh ss m b hq]

/-! ## Claim C8 — bin-membership arithmetic -/

theorem binContains_zero_of_low (hue : ℚ) (h0 : 0 ≤ hue) (h1 : hue < 1 / 12) :
    binContains 0 hue = true := by
  unfold binContains
  rw [if_pos rfl]
  simp only [Bool.or_eq_true, Bool.and_eq_true, decide_eq_true_eq]
  exact Or.inl ⟨h0, h1⟩

theorem binContains_zero_of_wrap (hue : ℚ) (h : 11 / 12 ≤ hue) :
    binContains 0 hue = true := by
  unfold binContains
  rw [if_pos rfl]
  simp only [Bool.or_eq_true, Bool.and_eq_true, decide_eq_true_eq]
  right
  linarith

theorem binContains_zero_eq_false (hue : ℚ) (h1 : 1 / 12 ≤ hue) (h2 : hue < 11 / 12) :
    binContains 0 hue = false := by
  unfold binContains
  rw [if_pos rfl]
  simp only [Bool.or_eq_false_iff, Bool.and_eq_false_iff, decide_eq_false_iff_not, not_le,
    not_lt]
  exact ⟨Or.inr h1, by linarith⟩

theorem binContains_pos_true (b : ℕ) (hb : b ≠ 0) (hue : ℚ)
    (h1 : (b : ℚ) * (1 / 12) ≤ hue) (h2 : hue < ((b : ℚ) + 1) * (1 / 12)) :
    binContains b hue = true := by
  unfold binContains
  rw [if_neg hb]
  simp only [Bool.and_eq_true, decide_eq_true_eq]
  exact ⟨h1, h2⟩

theorem binContains_pos_false_of_lt (b : ℕ) (hb : b ≠ 0) (hue : ℚ)
    (h : hue < (b : ℚ) * (1 / 12)) : binContains b hue = false := by
  unfold binContains
  rw [if_neg hb]
  simp only [Bool.and_eq_false_iff, decide_eq_false_iff_not, not_le]
  exact Or.inl h

theorem binContains_pos_false_of_ge (b : ℕ) (hb : b ≠ 0) (hue : ℚ)
    (h : ((b : ℚ) + 1) * (1 / 12) ≤ hue) : binContains b hue = false := by
  unfold binContains
  rw [if_neg hb]
  simp only [Bool.and_eq_false_iff, decide_eq_false_iff_not, not_lt]
  exact Or.inr h

/-! ## Claim C8 — per-region results of the 12-bin loop -/

/-- Pixels whose hue lies in `[b/12, (b+1)/12)` for `1 ≤ b ≤ 10` belong to
bin `b` only: their final saturation is the bin-`b` histogram match when both
bins exceed 100 pixels, and the untouched content saturation otherwise. -/
theorem hsv_result_middle (ch cs sh ss : List ℚ) (p b : ℕ)
    (hlen : cs.length = ch.length) (hp : p < ch.length)
    (hb1 : 1 ≤ b) (hb10 : b ≤ 10)
    (h1 : (b : ℚ) * (1 / 12) ≤ ch.getD p 0)
    (h2 : ch.getD p 0 < ((b : ℚ) + 1) * (1 / 12)) :
    (hue_conditional_saturation_match ch cs sh ss).getD p 0 =
      if 100 < (binVals ch cs b).length ∧ 100 < (binVals sh ss b).length
      then (histogram_matching_1d (binVals ch cs b) (binVals sh ss b)).getD
        ((binPositions ch b).indexOf p) 0
      else cs.getD p 0 := by
  have hbq1 : (1 : ℚ) ≤ (b : ℚ) := by exact_mod_cast hb1
  have hbq10 : (b : ℚ) ≤ 10 := by exact_mod_cast hb10
  -- decompose range 12 = range' 0 b ++ [b] ++ range' (b+1) (11-b)
  have hsplit : List.range 12 = List.range' 0 b ++ (b :: List.range' (b + 1) (11 - b)) := by
    rw [List.range_eq_range', show b :: List.range' (b + 1) (11 - b) =
      List.range' b ((11 - b) + 1) from by rw [List.range'_succ]]
    rw [show (12 : ℕ) = ((11 - b) + 1) + b from by omega, ← List.range'_append 0 b _ 1]
    simp
  unfold hue_conditional_saturation_match
  rw [hsplit, List.foldl_append, List.foldl_cons]
  -- the bins after b never touch the pixel
  rw [foldl_matchBin_getD_untouched _ _ _ _ _ _ _ _ (fun b' hb' => by
    rw [List.mem_range'_1] at hb'
    left
    refine binContains_pos_false_of_lt b' (by omega) _ ?_
    have : (b : ℚ) + 1 ≤ (b' : ℚ) := by exact_mod_cast hb'.1
    nlinarith)]
  -- the bins before b never touch the pixel either
  have huntouched : (List.foldl (matchBin ch cs sh ss) cs (List.range' 0 b)).getD p 0 =
      cs.getD p 0 := by
    refine foldl_matchBin_getD_untouched _ _ _ _ _ _ _ _ (fun b' hb' => ?_)
    rw [List.mem_range'_1] at hb'
    left
    rcases Nat.eq_zero_or_pos b' with hb0 | hbpos
    · subst hb0
      refine binContains_zero_eq_false _ (by nlinarith) (by nlinarith)
    · refine binContains_pos_false_of_ge b' (by omega) _ ?_
      have : (b' : ℚ) + 1 ≤ (b : ℚ) := by
        have : b' + 1 ≤ b := by omega
        exact_mod_cast this
      nlinarith
  have hlenfold : (List.foldl (matchBin ch cs sh ss) cs (List.range' 0 b)).length =
      cs.length := foldl_matchBin_length _ _ _ _ _ _
  by_cases hq : 100 < (binVals ch cs b).length ∧ 100 < (binVals sh ss b).length
  · rw [if_pos hq]
    exact matchBin_getD_of_contains ch cs sh ss _ b p hq
      (binContains_pos_true b (by omega) _ h1 h2) hp (by rw [hlenfold, hlen]; exact hp)
  · rw [if_neg hq, matchBin_eq_of_not_qualified ch cs sh ss _ b hq, huntouched]

/-- Pixels whose hue lies in `[0, 1/12)` belong to bin 0 only. -/
theorem hsv_result_low (ch cs sh ss : List ℚ) (p : ℕ)
    (hlen : cs.length = ch.length) (hp : p < ch.length)
    (h1 : 0 ≤ ch.getD p 0) (h2 : ch.getD p 0 < 1 / 12) :
    (hue_conditional_saturation_match ch cs sh ss).getD p 0 =
      if 100 < (binVals ch cs 0).length ∧ 100 < (binVals sh ss 0).length
      then (histogram_matching_1d (binVals ch cs 0) (binVals sh ss 0)).getD
        ((binPositions ch 0).indexOf p) 0
      else cs.getD p 0 := by
  have hsplit : List.range 12 = 0 :: List.range' 1 11 := by decide
  unfold hue_conditional_saturation_match
  rw [hsplit, List.foldl_cons]
  rw [foldl_matchBin_getD_untouched _ _ _ _ _ _ _ _ (fun b' hb' => by
    rw [List.mem_range'_1] at hb'
    left
    refine binContains_pos_false_of_lt b' (by omega) _ ?_
    have : (1 : ℚ) ≤ (b' : ℚ) := by exact_mod_cast hb'.1
    nlinarith)]
  by_cases hq : 100 < (binVals ch cs 0).length ∧ 100 < (binVals sh ss 0).length
  · rw [if_pos hq]
    exact matchBin_getD_of_contains ch cs sh ss _ 0 p hq
      (binContains_zero_of_low _ h1 h2) hp (by rw [hlen]; exact hp)
  · rw [if_neg hq, matchBin_eq_of_not_qualified ch cs sh ss _ 0 hq]

/-- Wrap pixels (hue in `[11/12, 1)`) belong to *both* bin 0 and bin 11: bin 0
is processed first and bin 11 last, so bin 11's histogram match wins whenever
bin 11 qualifies; otherwise bin 0's; otherwise the pixel is untouched. -/
theorem hsv_result_wrap (ch cs sh ss : List ℚ) (p : ℕ)
    (hlen : cs.length = ch.length) (hp : p < ch.length)
    (h1 : 11 / 12 ≤ ch.getD p 0) (h2 : ch.getD p 0 < 1) :
    (hue_conditional_saturation_match ch cs sh ss).getD p 0 =
      if 100 < (binVals ch cs 11).length ∧ 100 < (binVals sh ss 11).length
      then (histogram_matching_1d (binVals ch cs 11) (binVals sh ss 11)).getD
        ((binPositions ch 11).indexOf p) 0
      else if 100 < (binVals ch cs 0).length ∧ 100 < (binVals sh ss 0).length
      then (histogram_matching_1d (binVals ch cs 0) (binVals sh ss 0)).getD
        ((binPositions ch 0).indexOf p) 0
      else cs.getD p 0 := by
  have hsplit : List.range 12 = (0 :: List.range' 1 10) ++ [11] := by decide
  unfold hue_conditional_saturation_match
  rw [hsplit, List.foldl_append, List.foldl_cons, List.foldl_cons, List.foldl_nil]
  -- after bin 0, the bins 1..10 never touch the pixel
  have hmid : ∀ m : List ℚ, (List.foldl (matchBin ch cs sh ss) m (List.range' 1 10)).getD p 0 =
      m.getD p 0 := fun m =>
    foldl_matchBin_getD_untouched _ _ _ _ _ _ _ _ (fun b' hb' => by
      rw [List.mem_range'_1] at hb'
      left
      refine binContains_pos_false_of_ge b' (by omega) _ ?_
      have : (b' : ℚ) + 1 ≤ 11 := by
        have : b' + 1 ≤ 11 := by omega
        exact_mod_cast this
      nlinarith)
  have hm0len : (matchBin ch cs sh ss cs 0).length = cs.length := matchBin_length _ _ _ _ _ _
  have hmidlen : (List.foldl (matchBin ch cs sh ss) (matchBin ch cs sh ss cs 0)
      (List.range' 1 10)).length = cs.length := by
    rw [foldl_matchBin_length, hm0len]
  -- the value reaching bin 11
  have hbefore : (List.foldl (matchBin ch cs sh ss) (matchBin ch cs sh ss cs 0)
      (List.range' 1 10)).getD p 0 =
      if 100 < (binVals ch cs 0).length ∧ 100 < (binVals sh ss 0).length
      then (histogram_matching_1d (binVals ch cs 0) (binVals sh ss 0)).getD
        ((binPositions ch 0).indexOf p) 0
      else cs.getD p 0 := by
    rw [hmid]
    by_cases hq0 : 100 < (binVals ch cs 0).length ∧ 100 < (binVals sh ss 0).length
    · rw [if_pos hq0]
      exact matchBin_getD_of_contains ch cs sh ss cs 0 p hq0
        (binContains_zero_of_wrap _ h1) hp (by rw [hlen]; exact hp)
    · rw [if_neg hq0, matchBin_eq_of_not_qualified ch cs sh ss cs 0 hq0]
  by_cases hq11 : 100 < (binVals ch cs 11).length ∧ 100 < (binVals sh ss 11).length
  · rw [if_pos hq11]
    refine matchBin_getD_of_contains ch cs sh ss _ 11 p hq11 ?_ hp
      (by rw [hmidlen, hlen]; exact hp)
    refine binContains_pos_true 11 (by omega) _ (by push_cast; linarith) ?_
    push_cast
    linarith
  · rw [if_neg hq11, matchBin_eq_of_not_qualified ch cs sh ss _ 11 hq11, hbefore]

/-! ## Claim C8 — evaluation lemmas for the demonstration inputs -/

theorem getD_replicate (n i : ℕ) (c : ℚ) (h : i < n) :
    (List.replicate n c).getD i 0 = c := by
  rw [List.getD_eq_getElem _ _ (by simpa using h), List.getElem_replicate]

theorem binPositions_replicate (n : ℕ) (c : ℚ) (b : ℕ) :
    binPositions (List.replicate n c) b =
      if binContains b c then List.range n else [] := by
  unfold binPositions
  rw [List.length_replicate,
    List.filter_congr (fun p hp => by rw [getD_replicate n p c (List.mem_range.mp hp)])]
  cases hbc : binContains b c
  · simp
  · simp

theorem binVals_replicate (n : ℕ) (ca cb : ℚ) (b : ℕ) :
    binVals (List.replicate n ca) (List.replicate n cb) b =
      if binContains b ca then List.replicate n cb else [] := by
  unfold binVals
  rw [binPositions_replicate]
  cases hbc : binContains b ca
  · simp
  · rw [if_pos (rfl : true = true), if_pos (rfl : true = true),
      List.map_congr_left (fun p hp => getD_replicate n p cb (List.mem_range.mp hp)),
      List.map_const', List.length_range]

theorem map_getD_range (l : List ℚ) :
    (List.range l.length).map (fun p => l.getD p 0) = l := by
  apply List.ext_getElem
  · simp
  · intro i h1 h2
    simp only [List.getElem_map, List.getElem_range]
    exact List.getD_eq_getElem l 0 h2

theorem insertionSort_replicate (n : ℕ) (c : ℚ) :
    List.insertionSort (· ≤ ·) (List.replicate n c) = List.replicate n c :=
  List.Sorted.insertionSort_eq (by
    show List.Pairwise _ _
    rw [List.pairwise_replicate]
    exact Or.inr (le_refl c))

theorem orderedInsert_replicate_not_le (k : ℕ) (x y : ℚ) (h : ¬ x ≤ y) :
    List.orderedInsert (· ≤ ·) x (List.replicate k y) = List.replicate k y ++ [x] := by
  induction k with
  | zero => rfl
  | succ m ih => simp [List.replicate_succ, List.orderedInsert, if_neg h, ih]

/-- With a constant source (all saturations equal), `histogram_matching_1d`
returns the sorted reference in position order. -/
theorem histogram_matching_1d_const_source (n : ℕ) (c : ℚ) (reference : List ℚ)
    (h : reference.length = n) :
    histogram_matching_1d (List.replicate n c) reference =
      List.insertionSort (· ≤ ·) reference := by
  unfold histogram_matching_1d
  dsimp only
  rw [List.length_replicate, h, if_pos rfl]
  have henum : (List.replicate n c).enum = (List.range n).map (fun i => (i, c)) := by
    apply List.ext_getElem
    · simp
    · intro i h1 h2
      simp [List.getElem_enum]
  rw [henum]
  have hsorted : List.Sorted (fun a b : ℕ × ℚ => a.2 ≤ b.2)
      ((List.range n).map (fun i => (i, c))) := by
    show List.Pairwise _ _
    rw [List.pairwise_map]
    exact (List.pairwise_lt_range n).imp (fun _ => le_refl c)
  rw [hsorted.insertionSort_eq, List.map_map]
  rw [show ((fun p : ℕ × ℚ => p.1) ∘ fun i : ℕ => (i, c)) = id from rfl, List.map_id]
  have hzs : List.Sorted (fun a b : ℕ × ℚ => a.1 ≤ b.1)
      ((List.range n).zip (List.insertionSort (· ≤ ·) reference)) := by
    show List.Pairwise _ _
    rw [List.pairwise_iff_getElem]
    intro i j hi hj hij
    rw [List.getElem_zip, List.getElem_zip]
    dsimp only
    rw [List.getElem_range, List.getElem_range]
    omega
  rw [hzs.insertionSort_eq]
  exact List.map_snd_zip _ _ (by rw [List.length_insertionSort, h, List.length_range])

theorem foldl_matchBin_id (ch cs sh ss : List ℚ) (L : List ℕ) (m : List ℚ)
    (h : ∀ b ∈ L, ∀ m', matchBin ch cs sh ss m' b = m') :
    L.foldl (matchBin ch cs sh ss) m = m := by
  induction L generalizing m with
  | nil => rfl
  | cons b rest ih =>
    rw [List.foldl_cons, h b (List.mem_cons_self _ _) m]
    exact ih _ (fun b' hb' => h b' (List.mem_cons_of_mem _ hb'))

theorem binContains_one_eighth : binContains 1 (1 / 8) = true := by
  refine binContains_pos_true 1 (by omega) _ ?_ ?_ <;> · push_cast; norm_num

/-- On the threshold demonstration every bin holds at most 100 content
pixels, so no bin qualifies and the loop is the identity. -/
theorem hsvThr_result_untouched :
    hue_conditional_saturation_match hsvThrContentH hsvThrContentS hsvThrStyleH hsvThrStyleS =
      hsvThrContentS := by
  unfold hue_conditional_saturation_match
  apply foldl_matchBin_id
  intro b _ m'
  apply matchBin_eq_of_not_qualified
  have hlen1 : (binVals hsvThrContentH hsvThrContentS b).length ≤ 100 := by
    rw [binVals_length]
    unfold hsvThrContentH
    rw [binPositions_replicate]
    split
    · rw [List.length_range]
    · simp
  rintro ⟨hcon, -⟩
  omega

theorem hsvThr_counts :
    (binVals hsvThrContentH hsvThrContentS 1).length = 100 ∧
    (binVals hsvThrStyleH hsvThrStyleS 1).length = 100 := by
  constructor
  · rw [binVals_length]
    unfold hsvThrContentH
    rw [binPositions_replicate, if_pos binContains_one_eighth, List.length_range]
  · rw [binVals_length]
    unfold hsvThrStyleH
    rw [binPositions_replicate, if_pos binContains_one_eighth, List.length_range]

theorem hsvThr_binVals_content :
    binVals hsvThrContentH hsvThrContentS 1 = List.replicate 100 (1 / 5) := by
  unfold hsvThrContentH hsvThrContentS
  rw [binVals_replicate, if_pos binContains_one_eighth]

theorem hsvThr_binVals_style :
    binVals hsvThrStyleH hsvThrStyleS 1 = List.replicate 100 (4 / 5) := by
  unfold hsvThrStyleH hsvThrStyleS
  rw [binVals_replicate, if_pos binContains_one_eighth]

theorem hsvThr_matched_values :
    histogram_matching_1d (binVals hsvThrContentH hsvThrContentS 1)
      (binVals hsvThrStyleH hsvThrStyleS 1) = List.replicate 100 (4 / 5) := by
  rw [hsvThr_binVals_content, hsvThr_binVals_style,
    histogram_matching_1d_const_source 100 _ _ (List.length_replicate _ _),
    insertionSort_replicate]

/-! ## Claim C8 — evaluation of the wrap-around demonstration -/

theorem hsvWrapHue_length : hsvWrapHue.length = 102 := by
  simp [hsvWrapHue]

theorem hsvWrapHue_getD_succ (k : ℕ) (h : k < 101) :
    hsvWrapHue.getD (k + 1) 0 = 19 / 20 := by
  unfold hsvWrapHue
  rw [List.getD_cons_succ]
  exact getD_replicate _ _ _ h

theorem hsvWrap_binPositions_zero : binPositions hsvWrapHue 0 = List.range 102 := by
  unfold binPositions
  rw [hsvWrapHue_length]
  apply List.filter_eq_self.mpr
  intro a ha
  rw [List.mem_range] at ha
  cases a with
  | zero =>
    show binContains 0 (hsvWrapHue.getD 0 0) = true
    rw [show hsvWrapHue.getD 0 0 = 0 from rfl]
    exact binContains_zero_of_low 0 le_rfl (by norm_num)
  | succ k =>
    rw [hsvWrapHue_getD_succ k (by omega)]
    exact binContains_zero_of_wrap _ (by norm_num)

theorem hsvWrap_binPositions_eleven : binPositions hsvWrapHue 11 = List.range' 1 101 := by
  unfold binPositions
  rw [hsvWrapHue_length, show List.range 102 = 0 :: List.range' 1 101 from by decide,
    List.filter_cons_of_neg]
  · apply List.filter_eq_self.mpr
    intro a ha
    rw [List.mem_range'_1] at ha
    rw [show a = (a - 1) + 1 from by omega, hsvWrapHue_getD_succ (a - 1) (by omega)]
    refine binContains_pos_true 11 (by omega) _ ?_ ?_ <;> · push_cast; norm_num
  · show ¬ binContains 11 (hsvWrapHue.getD 0 0) = true
    rw [show hsvWrapHue.getD 0 0 = 0 from rfl,
      binContains_pos_false_of_lt 11 (by omega) 0 (by push_cast; norm_num)]
    simp

theorem hsvWrap_binVals_zero_content :
    binVals hsvWrapHue hsvWrapContentS 0 = List.replicate 102 (1 / 5) := by
  unfold binVals
  rw [hsvWrap_binPositions_zero]
  unfold hsvWrapContentS
  rw [List.map_congr_left (fun p hp => getD_replicate 102 p _ (List.mem_range.mp hp)),
    List.map_const', List.length_range]

theorem hsvWrap_binVals_zero_style :
    binVals hsvWrapHue hsvWrapStyleS 0 = hsvWrapStyleS := by
  unfold binVals
  rw [hsvWrap_binPositions_zero,
    show (102 : ℕ) = hsvWrapStyleS.length from by simp [hsvWrapStyleS], map_getD_range]

theorem hsvWrap_binVals_eleven_content :
    binVals hsvWrapHue hsvWrapContentS 11 = List.replicate 101 (1 / 5) := by
  unfold binVals
  rw [hsvWrap_binPositions_eleven]
  have hmap : ∀ p ∈ List.range' 1 101, hsvWrapContentS.getD p 0 = 1 / 5 := by
    intro p hp
    rw [List.mem_range'_1] at hp
    exact getD_replicate 102 p _ (by omega)
  rw [List.map_congr_left hmap, List.map_const', List.length_range']

theorem hsvWrap_binVals_eleven_style :
    binVals hsvWrapHue hsvWrapStyleS 11 = List.replicate 101 (1 / 2) := by
  unfold binVals
  rw [hsvWrap_binPositions_eleven]
  have hmap : ∀ p ∈ List.range' 1 101, hsvWrapStyleS.getD p 0 = 1 / 2 := by
    intro p hp
    rw [List.mem_range'_1] at hp
    rw [show p = (p - 1) + 1 from by omega]
    unfold hsvWrapStyleS
    rw [List.getD_cons_succ]
    exact getD_replicate 101 _ _ (by omega)
  rw [List.map_congr_left hmap, List.map_const', List.length_range']

theorem hsvWrap_hm_zero :
    histogram_matching_1d (binVals hsvWrapHue hsvWrapContentS 0)
      (binVals hsvWrapHue hsvWrapStyleS 0) = List.replicate 101 (1 / 2) ++ [9 / 10] := by
  rw [hsvWrap_binVals_zero_content, hsvWrap_binVals_zero_style,
    histogram_matching_1d_const_source 102 _ _ (by simp [hsvWrapStyleS])]
  show List.orderedInsert _ (9 / 10) (List.insertionSort _ (List.replicate 101 (1 / 2))) = _
  rw [insertionSort_replicate, orderedInsert_replicate_not_le _ _ _ (by norm_num)]

theorem hsvWrap_hm_eleven :
    histogram_matching_1d (binVals hsvWrapHue hsvWrapContentS 11)
      (binVals hsvWrapHue hsvWrapStyleS 11) = List.replicate 101 (1 / 2) := by
  rw [hsvWrap_binVals_eleven_content, hsvWrap_binVals_eleven_style,
    histogram_matching_1d_const_source 101 _ _ (List.length_replicate _ _),
    insertionSort_replicate]

theorem hsvWrap_result_101 :
    (hue_conditional_saturation_match hsvWrapHue hsvWrapContentS hsvWrapHue
      hsvWrapStyleS).getD 101 0 = 1 / 2 := by
  have h19 : hsvWrapHue.getD 101 0 = 19 / 20 := hsvWrapHue_getD_succ 100 (by omega)
  rw [hsv_result_wrap _ _ _ _ 101 (by simp [hsvWrapContentS, hsvWrapHue])
    (by rw [hsvWrapHue_length]; omega) (by rw [h19]; norm_num) (by rw [h19]; norm_num)]
  have hq : 100 < (binVals hsvWrapHue hsvWrapContentS 11).length ∧
      100 < (binVals hsvWrapHue hsvWrapStyleS 11).length := by
    constructor
    · rw [binVals_length, hsvWrap_binPositions_eleven, List.length_range']
      omega
    · rw [binVals_length, hsvWrap_binPositions_eleven, List.length_range']
      omega
  rw [if_pos hq, hsvWrap_hm_eleven]
  apply getD_replicate
  rw [hsvWrap_binPositions_eleven]
  have hmem : 101 ∈ List.range' 1 101 := by
    rw [List.mem_range'_1]
    omega
  have hidx := List.indexOf_lt_length.mpr hmem
  rwa [List.length_range'] at hidx

theorem hsvWrap_hm_zero_at_101 :
    (histogram_matching_1d (binVals hsvWrapHue hsvWrapContentS 0)
      (binVals hsvWrapHue hsvWrapStyleS 0)).getD 101 0 = 9 / 10 := by
  rw [hsvWrap_hm_zero,
    List.getD_append_right (List.replicate 101 ((1 : ℚ) / 2)) [9 / 10] 0 101
      (le_of_eq (List.length_replicate _ _)), List.length_replicate]
  norm_num

/-! ## Claim C8 — verdict -/

/-- **C8 counterexample**: two independent refutations of "matched iff both
bins hold at least 100 pixels, otherwise untouched".
(i) Threshold: with exactly 100 content and 100 style pixels in bin 1 — "at
least 100" on both sides — the code leaves every saturation untouched
(`len > min_pixels` at color_fix.py 655 is strict), although histogram
matching would have replaced the bin's `1/5` values by `4/5`.
(ii) Wrap-around: bin 0 holds 102 pixels of content and style (well over 100
on any reading), its mask is position order, yet the bin-0 pixel 101 ends
with saturation `1/2` — bin 11's matched value — although bin 0's histogram
match assigns it `9/10`: pixels in `[11/12, 1)` lie in bins 0 *and* 11 and
bin 11, processed last, overwrites bin 0's result. -/
theorem C8_counterexample_threshold_and_wrap :
    ((binVals hsvThrContentH hsvThrContentS 1).length = 100 ∧
      (binVals hsvThrStyleH hsvThrStyleS 1).length = 100 ∧
      hue_conditional_saturation_match hsvThrContentH hsvThrContentS hsvThrStyleH
        hsvThrStyleS = hsvThrContentS ∧
      histogram_matching_1d (binVals hsvThrContentH hsvThrContentS 1)
        (binVals hsvThrStyleH hsvThrStyleS 1) ≠ binVals hsvThrContentH hsvThrContentS 1) ∧
    ((binVals hsvWrapHue hsvWrapContentS 0).length = 102 ∧
      (binVals hsvWrapHue hsvWrapStyleS 0).length = 102 ∧
      binPositions hsvWrapHue 0 = List.range 102 ∧
      (hue_conditional_saturation_match hsvWrapHue hsvWrapContentS hsvWrapHue
        hsvWrapStyleS).getD 101 0 = 1 / 2 ∧
      (histogram_matching_1d (binVals hsvWrapHue hsvWrapContentS 0)
        (binVals hsvWrapHue hsvWrapStyleS 0)).getD 101 0 = 9 / 10 ∧
      (1 / 2 : ℚ) ≠ 9 / 10) := by
  refine ⟨⟨hsvThr_counts.1, hsvThr_counts.2, hsvThr_result_untouched, ?_⟩,
    ⟨?_, ?_, hsvWrap_binPositions_zero, hsvWrap_result_101, hsvWrap_hm_zero_at_101,
      by norm_num⟩⟩
  · rw [hsvThr_matched_values, hsvThr_binVals_content]
    intro heq
    have h0 := congrArg (fun l => l.getD 0 0) heq
    rw [show ((fun l : List ℚ => l.getD 0 0) (List.replicate 100 (4 / 5))) =
        (4 : ℚ) / 5 from getD_replicate 100 0 _ (by omega),
      show ((fun l : List ℚ => l.getD 0 0) (List.replicate 100 (1 / 5))) =
        (1 : ℚ) / 5 from getD_replicate 100 0 _ (by omega)] at h0
    norm_num at h0
  · rw [hsvWrap_binVals_zero_content, List.length_replicate]
  · rw [hsvWrap_binVals_zero_style]
    simp [hsvWrapStyleS]

/-- **C8 (amended)**: in `hue_conditional_saturation_match` a pixel of the
content is histogram-matched within its hue bin if and only if both the
content and the style have *strictly more than* 100 pixels in that bin
(`len > min_pixels` with `min_pixels = 100`), and is otherwise untouched —
with the qualification that bin 0 also covers the wrap range `[11/12, 1)`
shared with bin 11: bins run in ascending order, so a wrap pixel's final
saturation comes from bin 11's matching when bin 11 qualifies, from bin 0's
otherwise when bin 0 qualifies.  Pixels with hue in `[0, 1/12)` or in
`[b/12, (b+1)/12)` for `1 ≤ b ≤ 10` lie in exactly one bin and follow the
plain rule; a matched pixel receives the histogram-matched value at its rank
in the bin's mask. -/
theorem C8_hue_conditional_matching (ch cs sh ss : List ℚ) (p : ℕ)
    (hlen : cs.length = ch.length) (hp : p < ch.length) :
    (∀ b : ℕ, 1 ≤ b → b ≤ 10 → (b : ℚ) * (1 / 12) ≤ ch.getD p 0 →
      ch.getD p 0 < ((b : ℚ) + 1) * (1 / 12) →
      (hue_conditional_saturation_match ch cs sh ss).getD p 0 =
        if 100 < (binVals ch cs b).length ∧ 100 < (binVals sh ss b).length
        then (histogram_matching_1d (binVals ch cs b) (binVals sh ss b)).getD
          ((binPositions ch b).indexOf p) 0
        else cs.getD p 0) ∧
    (0 ≤ ch.getD p 0 → ch.getD p 0 < 1 / 12 →
      (hue_conditional_saturation_match ch cs sh ss).getD p 0 =
        if 100 < (binVals ch cs 0).length ∧ 100 < (binVals sh ss 0).length
        then (histogram_matching_1d (binVals ch cs 0) (binVals sh ss 0)).getD
          ((binPositions ch 0).indexOf p) 0
        else cs.getD p 0) ∧
    (11 / 12 ≤ ch.getD p 0 → ch.getD p 0 < 1 →
      (hue_conditional_saturation_match ch cs sh ss).getD p 0 =
        if 100 < (binVals ch cs 11).length ∧ 100 < (binVals sh ss 11).length
        then (histogram_matching_1d (binVals ch cs 11) (binVals sh ss 11)).getD
          ((binPositions ch 11).indexOf p) 0
        else if 100 < (binVals ch cs 0).length ∧ 100 < (binVals sh ss 0).length
        then (histogram_matching_1d (binVals ch cs 0) (binVals sh ss 0)).getD
          ((binPositions ch 0).indexOf p) 0
        else cs.getD p 0) :=
  ⟨fun b hb1 hb10 h1 h2 => hsv_result_middle ch cs sh ss p b hlen hp hb1 hb10 h1 h2,
   fun h1 h2 => hsv_result_low ch cs sh ss p hlen hp h1 h2,
   fun h1 h2 => hsv_result_wrap ch cs sh ss p hlen hp h1 h2⟩

/-- Witness for C8 (amended) at the threshold demonstration input, pixel 0. -/
theorem C8_hue_conditional_matching_witness :
    hsvThrContentS.length = hsvThrContentH.length ∧ 0 < hsvThrContentH.length ∧
    ((∀ b : ℕ, 1 ≤ b → b ≤ 10 → (b : ℚ) * (1 / 12) ≤ hsvThrContentH.getD 0 0 →
      hsvThrContentH.getD 0 0 < ((b : ℚ) + 1) * (1 / 12) →
      (hue_conditional_saturation_match hsvThrContentH hsvThrContentS hsvThrStyleH
        hsvThrStyleS).getD 0 0 =
        if 100 < (binVals hsvThrContentH hsvThrContentS b).length ∧
            100 < (binVals hsvThrStyleH hsvThrStyleS b).length
        then (histogram_matching_1d (binVals hsvThrContentH hsvThrContentS b)
          (binVals hsvThrStyleH hsvThrStyleS b)).getD
          ((binPositions hsvThrContentH b).indexOf 0) 0
        else hsvThrContentS.getD 0 0) ∧
    (0 ≤ hsvThrContentH.getD 0 0 → hsvThrContentH.getD 0 0 < 1 / 12 →
      (hue_conditional_saturation_match hsvThrContentH hsvThrContentS hsvThrStyleH
        hsvThrStyleS).getD 0 0 =
        if 100 < (binVals hsvThrContentH hsvThrContentS 0).length ∧
            100 < (binVals hsvThrStyleH hsvThrStyleS 0).length
        then (histogram_matching_1d (binVals hsvThrContentH hsvThrContentS 0)
          (binVals hsvThrStyleH hsvThrStyleS 0)).getD
          ((binPositions hsvThrContentH 0).indexOf 0) 0
        else hsvThrContentS.getD 0 0) ∧
    (11 / 12 ≤ hsvThrContentH.getD 0 0 → hsvThrContentH.getD 0 0 < 1 →
      (hue_conditional_saturation_match hsvThrContentH hsvThrContentS hsvThrStyleH
        hsvThrStyleS).getD 0 0 =
        if 100 < (binVals hsvThrContentH hsvThrContentS 11).length ∧
            100 < (binVals hsvThrStyleH hsvThrStyleS 11).length
        then (histogram_matching_1d (binVals hsvThrContentH hsvThrContentS 11)
          (binVals hsvThrStyleH hsvThrStyleS 11)).getD
          ((binPositions hsvThrContentH 11).indexOf 0) 0
        else if 100 < (binVals hsvThrContentH hsvThrContentS 0).length ∧
            100 < (binVals hsvThrStyleH hsvThrStyleS 0).length
        then (histogram_matching_1d (binVals hsvThrContentH hsvThrContentS 0)
          (binVals hsvThrStyleH hsvThrStyleS 0)).getD
          ((binPositions hsvThrContentH 0).indexOf 0) 0
        else hsvThrContentS.getD 0 0)) :=
  ⟨by simp [hsvThrContentS, hsvThrContentH], by simp [hsvThrContentH],
    C8_hue_conditional_matching hsvThrContentH hsvThrContentS hsvThrStyleH hsvThrStyleS 0
      (by simp [hsvThrContentS, hsvThrContentH]) (by simp [hsvThrContentH])⟩

end SeedVR2
